import Mathlib

/-!
Verification development for the docx-to-HTML engine of the repository:
the comment parser/threader (`docxParser.ts`) and the document transformer
(`docxHtmlTransformer.ts`).  The TypeScript sources are shallowly embedded:
DOM documents become an explicit tree type, JS `Map`/object-record lookups
become association lists with last-write-wins lookup, and JS string
truthiness (`undefined` and `""` are falsy) is modelled explicitly.
-/

namespace DocxEngine

/-- JS truthiness of a `string | undefined` value: `undefined` and the empty
string are falsy, every other string is truthy. -/
def jsTruthy : Option String → Bool
  | none => false
  | some s => !(s == "")

/-- JS `a || b` on `string | null` operands (used for the pervasive
`getAttribute('w:x') || getAttribute('x')` chains). -/
def orT (a b : Option String) : Option String :=
  if jsTruthy a then a else b

/-- JS `a || d` where `d` is a string default: the default is taken when `a`
is `undefined`/`null` or the empty string. -/
def orVal : Option String → String → String
  | some s, d => if s == "" then d else s
  | none, d => d

/-- JS `a || undefined`: collapse a falsy value (null or empty string) to
`undefined`. -/
def toUndef (a : Option String) : Option String :=
  if jsTruthy a then a else none

/-- Lookup in an association list with JS `Map.get`/object-index semantics:
later `set`s overwrite earlier ones, so the last binding wins. -/
def lookupLast {κ α : Type} [BEq κ] (l : List (κ × α)) (k : κ) : Option α :=
  l.foldl (fun acc p => if p.1 == k then some p.2 else acc) none

/-- Replace the element at index `n` (JS in-place mutation of one array slot;
out-of-range indices leave the list unchanged). -/
def updateAt {α : Type} : Nat → (α → α) → List α → List α
  | _, _, [] => []
  | 0, f, a :: as => f a :: as
  | n + 1, f, a :: as => a :: updateAt n f as

/-- Whitespace characters stripped by JS `String.prototype.trim`
(ASCII subset, which covers the document text handled here). -/
def isJsWS (c : Char) : Bool :=
  c == ' ' || c == '\t' || c == '\n' || c == '\r' || c == '\x0b' || c == '\x0c'

/-- JS `String.prototype.trim`. -/
def jsTrim (s : String) : String :=
  ⟨((s.data.dropWhile isJsWS).reverse.dropWhile isJsWS).reverse⟩

/-- ASCII lower-casing of one character (JS `toLowerCase` on the tag names
occurring here, which are ASCII). -/
def lowerChar (c : Char) : Char :=
  if 'A' ≤ c && c ≤ 'Z' then Char.ofNat (c.toNat + 32) else c

/-- ASCII `String.prototype.toLowerCase`. -/
def lowerStr (s : String) : String :=
  ⟨s.data.map lowerChar⟩

/-- Numeric value of a non-empty list of decimal digits. -/
def digitsVal (l : List Char) : Nat :=
  l.foldl (fun a c => a * 10 + (c.toNat - '0'.toNat)) 0

/-- JS `parseInt(s)` (radix 10): skip leading whitespace, optional sign, then
the longest digit run; `none` models `NaN` (no digits). -/
def parseIntM (s : String) : Option Int :=
  let l := s.data.dropWhile isJsWS
  let signAndRest : Bool × List Char :=
    match l with
    | '-' :: rest => (true, rest)
    | '+' :: rest => (false, rest)
    | _ => (false, l)
  let ds := signAndRest.2.takeWhile (fun c => '0' ≤ c && c ≤ '9')
  if ds.isEmpty then none
  else some (if signAndRest.1 then -(digitsVal ds : Int) else (digitsVal ds : Int))

/-- JS `Math.round(n / 2)` for an integer `n` (round half toward plus
infinity). -/
def jsRoundHalf (n : Int) : Int :=
  if n % 2 = 0 then n / 2 else (n + 1).fdiv 2

/-- JS substring test `s.includes(pat)` on character lists. -/
def hasSub : List Char → List Char → Bool
  | [], pat => pat.isEmpty
  | c :: rest, pat => pat.isPrefixOf (c :: rest) || hasSub rest pat

/-- Replace the first occurrence of a (non-empty) pattern, as JS
`String.prototype.replace` with string arguments does. -/
def replFirst : List Char → List Char → List Char → List Char
  | [], _, _ => []
  | c :: rest, pat, rep =>
    if pat.isPrefixOf (c :: rest) then rep ++ (c :: rest).drop pat.length
    else c :: replFirst rest pat rep

/-- JS `s.includes(pat)`. -/
def jsIncludes (s pat : String) : Bool := hasSub s.data pat.data

/-- JS `s.replace(pat, rep)` with a string pattern (first occurrence only). -/
def jsReplaceFirst (s pat rep : String) : String :=
  ⟨replFirst s.data pat.data rep.data⟩

/-- JS `Array.prototype.join(sep)` on a list of strings. -/
def jsJoinSep (sep : String) : List String → String
  | [] => ""
  | [s] => s
  | s :: rest => s ++ sep ++ jsJoinSep sep rest

/-- Split a character list on a separator character (JS `split`). -/
def splitChar (c : Char) : List Char → List (List Char)
  | [] => [[]]
  | x :: rest =>
    let r := splitChar c rest
    if x == c then [] :: r
    else
      match r with
      | [] => [[x]]
      | h :: t => (x :: h) :: t

/-- JS `id.split('-').pop() || id` used to recover the original note id from
the `documentId`-prefixed one. -/
def idTail (s : String) : String :=
  match (splitChar '-' s.data).getLast? with
  | some l => if l.isEmpty then s else ⟨l⟩
  | none => s

/-! ## XML tree model

The browser `DOMParser` output is modelled as a tree of elements and text
nodes.  `querySelector('w\\:x, x')` selector strings are modelled as the
list of acceptable tag names, matched over the descendants of the queried
node in document (pre-)order, exactly as the CSS type selectors behave on
the XML documents handled here. -/

inductive XNode where
  | elem (tag : String) (attrs : List (String × String)) (children : List XNode)
  | text (s : String)

/-- DOM `getAttribute`: `none` models `null`. -/
def XNode.getAttr : XNode → String → Option String
  | .elem _ attrs _, k => (attrs.find? (fun p => p.1 == k)).map Prod.snd
  | .text _, _ => none

/-- Tag of an element node. -/
def XNode.tagOf : XNode → String
  | .elem t _ _ => t
  | .text _ => ""

/-- Direct children of a node. -/
def XNode.kids : XNode → List XNode
  | .elem _ _ cs => cs
  | .text _ => []

mutual

/-- All element descendants of a node in document order, each paired with its
ancestor chain (innermost ancestor first); `anc` is the chain of the queried
node itself. -/
def XNode.subEls : XNode → List XNode → List (XNode × List XNode)
  | .text _, _ => []
  | .elem t a cs, anc => XNode.subElsList cs (XNode.elem t a cs :: anc)

/-- Descendants-with-chain of a list of sibling nodes whose common ancestor
chain is `anc`. -/
def XNode.subElsList : List XNode → List XNode → List (XNode × List XNode)
  | [], _ => []
  | c :: rest, anc =>
    match c with
    | .text _ => XNode.subElsList rest anc
    | .elem t a cs =>
      (XNode.elem t a cs, anc) :: (XNode.subEls (XNode.elem t a cs) anc ++ XNode.subElsList rest anc)

end

mutual

/-- DOM `textContent`: concatenation of all text in the subtree. -/
def XNode.textContent : XNode → String
  | .text s => s
  | .elem _ _ cs => XNode.textContentList cs

/-- Text content of a list of sibling nodes. -/
def XNode.textContentList : List XNode → String
  | [] => ""
  | c :: rest => XNode.textContent c ++ XNode.textContentList rest

end

/-- DOM `querySelectorAll` restricted to type selectors: all descendant
elements whose tag is one of `tags`, in document order. -/
def qsa (n : XNode) (tags : List String) : List XNode :=
  ((XNode.subEls n []).map Prod.fst).filter (fun e =>
    match e with
    | .elem t _ _ => tags.contains t
    | .text _ => false)

/-- DOM `querySelector`: first match of `qsa` or `none`. -/
def qs (n : XNode) (tags : List String) : Option XNode :=
  (qsa n tags).head?

/-! ## Property value bags (docxHtmlTransformer.ts interfaces)

Optional TypeScript fields become `Option` fields; a field is "present"
(`Object.keys` counts it) exactly when it is `some`. -/

/-- The `underline` field holds `boolean | string` in the source. -/
inductive UnderlineVal where
  | bool (b : Bool)
  | str (s : String)
deriving DecidableEq

/-- Tracked-change descriptor (`RunProperties.revision`). -/
structure Revision where
  type : String
  author : Option String := none
  date : Option String := none
  id : Option String := none
deriving DecidableEq

/-- Run-level formatting (`RunProperties` interface). -/
structure RunProperties where
  bold : Option Bool := none
  italic : Option Bool := none
  underline : Option UnderlineVal := none
  fontSize : Option String := none
  color : Option String := none
  fontFamily : Option String := none
  highlight : Option String := none
  strikethrough : Option Bool := none
  doubleStrikethrough : Option Bool := none
  allCaps : Option Bool := none
  smallCaps : Option Bool := none
  verticalAlign : Option String := none
  rStyle : Option String := none
  revision : Option Revision := none
deriving DecidableEq

/-- Indentation sub-record of paragraph properties. -/
structure Indentation where
  left : Option Int := none
  right : Option Int := none
  firstLine : Option Int := none
deriving DecidableEq

/-- Numbering reference (`numPr`) of a paragraph or style. -/
structure NumberingRef where
  numId : Option String := none
  ilvl : Option Int := none
deriving DecidableEq

/-- Paragraph-level properties (`ParagraphProperties` interface; the unused
`spacing` field, which the extractor never populates, is omitted). -/
structure ParagraphProperties where
  alignment : Option String := none
  indentation : Option Indentation := none
  numbering : Option NumberingRef := none
  pStyle : Option String := none
  runProperties : Option RunProperties := none
deriving DecidableEq

/-- Format the `w:sz` half-point value: `Math.round(parseInt(val)/2) + "pt"`
(`parseInt` failure renders as `NaN`, string-interpolated). -/
def fmtHalfPt (s : String) : String :=
  (match parseIntM s with
   | some n => toString (jsRoundHalf n)
   | none => "NaN") ++ "pt"

/-- Embedding of `extractRunProperties` (docxHtmlTransformer.ts): read one
`rPr` element into a `RunProperties` bag.  Note that the boolean toggles
(`w:b`, `w:i`, `w:strike`, `w:dstrike`, `w:caps`, `w:smallCaps`) are set to
`true` on mere element presence — their `w:val` attribute is never read. -/
def extractRunProperties (rPrElement : Option XNode) : RunProperties :=
  match rPrElement with
  | none => {}
  | some rPr =>
    let rStyle : Option String :=
      match qs rPr ["w:rStyle", "rStyle"] with
      | some el =>
        let v := orT (el.getAttr "w:val") (el.getAttr "val")
        if jsTruthy v then v else none
      | none => none
    let bold : Option Bool := if (qs rPr ["w:b", "b"]).isSome then some true else none
    let italic : Option Bool := if (qs rPr ["w:i", "i"]).isSome then some true else none
    let underline : Option UnderlineVal :=
      match qs rPr ["w:u", "u"] with
      | some el =>
        let v := orT (el.getAttr "w:val") (el.getAttr "val")
        match v with
        | some s => if s == "" then some (UnderlineVal.bool true) else some (UnderlineVal.str s)
        | none => some (UnderlineVal.bool true)
      | none => none
    let fontSize : Option String :=
      match qs rPr ["w:sz", "sz"] with
      | some el =>
        let v := orT (el.getAttr "w:val") (el.getAttr "val")
        match v with
        | some s => if s == "" then none else some (fmtHalfPt s)
        | none => none
      | none => none
    let color : Option String :=
      match qs rPr ["w:color", "color"] with
      | some el =>
        let v := orT (el.getAttr "w:val") (el.getAttr "val")
        match v with
        | some s => if s == "" || s == "auto" then none else some ("#" ++ s)
        | none => none
      | none => none
    let fontFamily : Option String :=
      match qs rPr ["w:rFonts", "rFonts"] with
      | some el =>
        let v := orT (el.getAttr "w:ascii") (el.getAttr "ascii")
        if jsTruthy v then v else none
      | none => none
    let highlight : Option String :=
      match qs rPr ["w:highlight", "highlight"] with
      | some el =>
        let v := orT (el.getAttr "w:val") (el.getAttr "val")
        match v with
        | some s => if s == "" || s == "none" then none else some s
        | none => none
      | none => none
    let strikethrough : Option Bool :=
      if (qs rPr ["w:strike", "strike"]).isSome then some true else none
    let doubleStrikethrough : Option Bool :=
      if (qs rPr ["w:dstrike", "dstrike"]).isSome then some true else none
    let allCaps : Option Bool := if (qs rPr ["w:caps", "caps"]).isSome then some true else none
    let smallCaps : Option Bool :=
      if (qs rPr ["w:smallCaps", "smallCaps"]).isSome then some true else none
    let verticalAlign : Option String :=
      match qs rPr ["w:vertAlign", "vertAlign"] with
      | some el =>
        let v := orT (el.getAttr "w:val") (el.getAttr "val")
        match v with
        | some s => if s == "superscript" || s == "subscript" then some s else none
        | none => none
      | none => none
    { rStyle, bold, italic, underline, fontSize, color, fontFamily, highlight,
      strikethrough, doubleStrikethrough, allCaps, smallCaps, verticalAlign }

/-- Map a `w:jc` value to the CSS alignment keyword, as the `switch`
statements in the source do. -/
def jcToAlignment (v : String) : String :=
  if v == "center" then "center"
  else if v == "right" then "right"
  else if v == "both" then "justify"
  else "left"

/-- Read a `w:ind` element into an `Indentation` record (shared shape of the
three indentation extractions in the source).  A non-numeric attribute value
(JS `parseInt` returning `NaN`) is modelled as `0`; no claim below exercises
malformed numeric attributes. -/
def extractIndentation (indEl : XNode) : Indentation :=
  let rd (k1 k2 : String) : Option Int :=
    let v := orT (indEl.getAttr k1) (indEl.getAttr k2)
    match v with
    | some s => if s == "" then none else some ((parseIntM s).getD 0)
    | none => none
  { left := rd "w:left" "left", right := rd "w:right" "right",
    firstLine := rd "w:firstLine" "firstLine" }

/-- Embedding of `extractParagraphProperties` (docxHtmlTransformer.ts). -/
def extractParagraphProperties (pPrElement : Option XNode) : ParagraphProperties :=
  match pPrElement with
  | none => {}
  | some pPr =>
    let pStyle : Option String :=
      match qs pPr ["w:pStyle", "pStyle"] with
      | some el =>
        let v := orT (el.getAttr "w:val") (el.getAttr "val")
        if jsTruthy v then v else none
      | none => none
    let alignment : Option String :=
      match qs pPr ["w:jc", "jc"] with
      | some el =>
        let v := orT (el.getAttr "w:val") (el.getAttr "val")
        match v with
        | some s => if s == "" then none else some (jcToAlignment s)
        | none => none
      | none => none
    let indentation : Option Indentation :=
      match qs pPr ["w:ind", "ind"] with
      | some el => some (extractIndentation el)
      | none => none
    let numbering : Option NumberingRef :=
      match qs pPr ["w:numPr", "numPr"] with
      | some numPr =>
        let numId : Option String :=
          match qs numPr ["w:numId", "numId"] with
          | some el =>
            let v := orT (el.getAttr "w:val") (el.getAttr "val")
            if jsTruthy v then v else none
          | none => none
        let ilvl : Option Int :=
          match qs numPr ["w:ilvl", "ilvl"] with
          | some el =>
            let v := orT (el.getAttr "w:val") (el.getAttr "val")
            match v with
            | some s => if s == "" then none else some ((parseIntM s).getD 0)
            | none => none
          | none => none
        some { numId, ilvl }
      | none => none
    let runProperties : Option RunProperties :=
      match qs pPr ["w:rPr", "rPr"] with
      | some el => some (extractRunProperties (some el))
      | none => none
    { pStyle, alignment, indentation, numbering, runProperties }

/-! ## Property merging and CSS rendering -/

/-- Overwrite-if-present: the field of the higher-precedence layer is taken
exactly when it is defined (`override.f !== undefined`). -/
def ovr {α : Type} (o b : Option α) : Option α :=
  match o with
  | some v => some v
  | none => b

/-- Embedding of `mergeRunProperties`: start from `{...base}` and copy every
defined field of `override` over it. -/
def mergeRunProperties (base override : RunProperties) : RunProperties :=
  { bold := ovr override.bold base.bold
    italic := ovr override.italic base.italic
    underline := ovr override.underline base.underline
    fontSize := ovr override.fontSize base.fontSize
    color := ovr override.color base.color
    fontFamily := ovr override.fontFamily base.fontFamily
    highlight := ovr override.highlight base.highlight
    strikethrough := ovr override.strikethrough base.strikethrough
    doubleStrikethrough := ovr override.doubleStrikethrough base.doubleStrikethrough
    allCaps := ovr override.allCaps base.allCaps
    smallCaps := ovr override.smallCaps base.smallCaps
    verticalAlign := ovr override.verticalAlign base.verticalAlign
    rStyle := ovr override.rStyle base.rStyle
    revision := ovr override.revision base.revision }

/-- The empty property bag (`{}`), and `Object.keys(props).length > 0` test. -/
def emptyRunProps : RunProperties := {}

/-- JS `Object.keys(props).length > 0` on a `RunProperties` bag: some field is
defined. -/
def hasAnyRunProp (p : RunProperties) : Bool :=
  p.bold.isSome || p.italic.isSome || p.underline.isSome || p.fontSize.isSome ||
  p.color.isSome || p.fontFamily.isSome || p.highlight.isSome ||
  p.strikethrough.isSome || p.doubleStrikethrough.isSome || p.allCaps.isSome ||
  p.smallCaps.isSome || p.verticalAlign.isSome || p.rStyle.isSome || p.revision.isSome

/-- Embedding of `twipsToPixels`: `Math.round(twips / 20 * 96 / 72)`. -/
def twipsToPixels (twips : Int) : Int :=
  (2 * twips + 15).fdiv 30

/-- The Word-highlight-name to CSS-color table of `createRunStyles`. -/
def highlightColorMap : List (String × String) :=
  [("yellow", "#ffff00"), ("brightGreen", "#00ff00"), ("turquoise", "#40e0d0"),
   ("pink", "#ffc0cb"), ("blue", "#0000ff"), ("red", "#ff0000"),
   ("darkBlue", "#000080"), ("teal", "#008080"), ("green", "#008000"),
   ("violet", "#ee82ee"), ("darkRed", "#8b0000"), ("darkYellow", "#8b8000"),
   ("gray25", "#c0c0c0"), ("gray50", "#808080"), ("black", "#000000")]

/-- Embedding of `createRunStyles`: render a `RunProperties` bag to the inline
CSS string emitted on a span. -/
def createRunStyles (props : RunProperties) : String :=
  let styles0 : List String := []
  let styles1 := if props.bold == some true then styles0 ++ ["font-weight: bold"] else styles0
  let styles2 := if props.italic == some true then styles1 ++ ["font-style: italic"] else styles1
  let decorations0 : List String := []
  let uRes : List String × List String :=
    match props.underline with
    | some (.bool true) => (styles2, decorations0 ++ ["underline"])
    | some (.bool false) => (styles2, decorations0)
    | some (.str s) =>
      if s == "" then (styles2, decorations0)
      else if s == "single" then (styles2, decorations0 ++ ["underline"])
      else if s == "double" then (styles2, decorations0 ++ ["underline"])
      else if s == "none" then (styles2 ++ ["text-decoration: none"], decorations0)
      else (styles2, decorations0 ++ ["underline"])
    | none => (styles2, decorations0)
  let styles3 := uRes.1
  let decorations1 :=
    if props.strikethrough == some true || props.doubleStrikethrough == some true then
      uRes.2 ++ ["line-through"]
    else uRes.2
  let styles4 :=
    if decorations1.length > 0 then
      styles3 ++ ["text-decoration: " ++ jsJoinSep " " decorations1]
    else styles3
  let styles5 :=
    if props.underline == some (.str "double") then styles4 ++ ["text-decoration-style: double"]
    else styles4
  let styles6 :=
    if jsTruthy props.fontSize then styles5 ++ ["font-size: " ++ (props.fontSize.getD "")]
    else styles5
  let styles7 :=
    if jsTruthy props.color then styles6 ++ ["color: " ++ (props.color.getD "")] else styles6
  let styles8 :=
    if jsTruthy props.fontFamily then
      styles7 ++ ["font-family: \"" ++ (props.fontFamily.getD "") ++ "\""]
    else styles7
  let styles9 :=
    if jsTruthy props.highlight then
      let h := props.highlight.getD ""
      styles8 ++ ["background-color: " ++ orVal (lookupLast highlightColorMap h) h]
    else styles8
  let styles10 :=
    if props.allCaps == some true then styles9 ++ ["text-transform: uppercase"]
    else if props.smallCaps == some true then styles9 ++ ["font-variant: small-caps"]
    else styles9
  let styles11 :=
    match props.verticalAlign with
    | some s =>
      if s == "superscript" then styles10 ++ ["vertical-align: super; font-size: smaller"]
      else if s == "subscript" then styles10 ++ ["vertical-align: sub; font-size: smaller"]
      else styles10
    | none => styles10
  let styles12 :=
    match props.revision with
    | some r =>
      if r.type == "insertion" then styles11 ++ ["color: #008000; text-decoration: underline"]
      else if r.type == "deletion" then styles11 ++ ["color: #ff0000; text-decoration: line-through"]
      else if r.type == "moveFrom" then styles11 ++ ["color: #0000ff; text-decoration: line-through"]
      else if r.type == "moveTo" then styles11 ++ ["color: #0000ff; text-decoration: underline"]
      else styles11
    | none => styles11
  jsJoinSep "; " styles12

/-! ## Style and numbering catalogs -/

/-- Paragraph-formatting part of a style or numbering-level definition
(`StyleDefinition['paragraphProps']` / `LevelDefinition['paragraphProps']`). -/
structure StyleParagraphProps where
  alignment : Option String := none
  indentation : Option Indentation := none
deriving DecidableEq

/-- Embedding of `StyleDefinition` (styles.xml entry). -/
structure StyleDefinition where
  styleId : String
  basedOn : Option String := none
  numbering : Option NumberingRef := none
  paragraphProps : Option StyleParagraphProps := none
  runProperties : Option RunProperties := none
deriving DecidableEq

/-- Embedding of `LevelDefinition` (one `w:lvl` of an abstract numbering
definition).  Note it carries *no* run-level formatting. -/
structure LevelDefinition where
  numFmt : String
  lvlText : String
  start : Option Int := none
  paragraphProps : Option StyleParagraphProps := none
deriving DecidableEq

/-- Embedding of `NumberingDefinition` (`num` → `abstractNum` indirection
resolved; `levels` is the level-index-keyed map). -/
structure NumberingDefinition where
  abstractNumId : String
  levels : List (Int × LevelDefinition)
deriving DecidableEq

/-- Number of style ids not yet in the visited set: the measure that makes
the `basedOn` walks terminate. -/
def unvisitedCount (styles : List (String × StyleDefinition)) (visited : List String) : Nat :=
  ((styles.map Prod.fst).filter (fun k => decide (k ∉ visited))).length

theorem foldl_lookup_const {α : Type} (l : List (String × α)) (k : String) (init : Option α)
    (h : ∀ p ∈ l, p.1 ≠ k) :
    l.foldl (fun acc p => if p.1 == k then some p.2 else acc) init = init := by
  induction l generalizing init with
  | nil => rfl
  | cons p t ih =>
    have hp : p.1 ≠ k := h p (by simp)
    simp only [List.foldl_cons]
    rw [if_neg (by simpa using hp)]
    exact ih init (fun q hq => h q (by simp [hq]))

theorem lookupLast_mem {α : Type} {l : List (String × α)} {k : String} {v : α}
    (h : lookupLast l k = some v) : k ∈ l.map Prod.fst := by
  by_contra hk
  have : ∀ p ∈ l, p.1 ≠ k := by
    intro p hp hpk
    exact hk (by simpa [hpk] using List.mem_map_of_mem Prod.fst hp)
  rw [lookupLast, foldl_lookup_const l k none this] at h
  exact Option.noConfusion h

theorem length_filter_le_of_imp {α : Type} (p q : α → Bool) (l : List α)
    (h : ∀ a, p a = true → q a = true) :
    (l.filter p).length ≤ (l.filter q).length := by
  induction l with
  | nil => simp
  | cons x t ih =>
    by_cases hp : p x = true
    · simp [List.filter_cons, hp, h x hp]
      omega
    · simp only [List.filter_cons]
      rw [if_neg (by simpa using hp)]
      by_cases hq : q x = true
      · simp [hq]; omega
      · rw [if_neg (by simpa using hq)]; exact ih

theorem filter_notmem_lt (keys visited : List String) (id : String)
    (hmem : id ∈ keys) (hnv : id ∉ visited) :
    (keys.filter (fun k => decide (k ∉ (id :: visited)))).length <
    (keys.filter (fun k => decide (k ∉ visited))).length := by
  induction keys with
  | nil => simp at hmem
  | cons x t ih =>
    rw [List.filter_cons, List.filter_cons]
    by_cases hx : x = id
    · subst hx
      rw [if_neg (by simp), if_pos (by simpa using hnv)]
      have hle := length_filter_le_of_imp
        (fun k => decide (k ∉ (x :: visited))) (fun k => decide (k ∉ visited)) t
        (by
          intro a ha
          simp only [decide_eq_true_eq, List.mem_cons, not_or] at ha ⊢
          exact ha.2)
      simp only [List.length_cons]
      omega
    · have hsame : (decide (x ∉ (id :: visited))) = (decide (x ∉ visited)) := by
        simp [List.mem_cons, hx]
      have hmem2 : id ∈ t := by
        rcases List.mem_cons.mp hmem with h | h
        · exact absurd h.symm hx
        · exact h
      have hlt := ih hmem2
      rw [hsame]
      by_cases hv : (decide (x ∉ visited)) = true
      · rw [if_pos hv, if_pos hv]
        simpa using hlt
      · rw [if_neg hv, if_neg hv]
        exact hlt

theorem unvisited_lt (styles : List (String × StyleDefinition)) (visited : List String)
    (id : String) (hmem : id ∈ styles.map Prod.fst) (hnv : id ∉ visited) :
    unvisitedCount styles (id :: visited) < unvisitedCount styles visited :=
  filter_notmem_lt (styles.map Prod.fst) visited id hmem hnv

/-- Fuelled form of `getStyleNumbering`'s recursion (the JS function recurses
on the `basedOn` chain guarded by the visited set; the fuel argument, always
called with more fuel than there are unvisited style ids, is the explicit
termination bound that the visited set enforces — see the cycle-termination
theorem below). -/
def getStyleNumberingFuel :
    Nat → List (String × StyleDefinition) → List String → String → Option NumberingRef
  | 0, _, _, _ => none
  | fuel + 1, styles, visited, styleId =>
    if styleId ∈ visited then none
    else
      match lookupLast styles styleId with
      | none => none
      | some style =>
        if style.numbering.isSome then style.numbering
        else
          match style.basedOn with
          | some b => getStyleNumberingFuel fuel styles (styleId :: visited) b
          | none => none

/-- Embedding of `getStyleNumbering`: walk the `basedOn` chain for a
numbering reference, with the visited set guarding against cycles. -/
def getStyleNumbering (styles : List (String × StyleDefinition)) (visited : List String)
    (styleId : String) : Option NumberingRef :=
  getStyleNumberingFuel (unvisitedCount styles visited + 1) styles visited styleId

/-- Fuelled form of `getStyleParagraphProps`'s recursion. -/
def getStyleParagraphPropsFuel :
    Nat → List (String × StyleDefinition) → List String → String → Option StyleParagraphProps
  | 0, _, _, _ => none
  | fuel + 1, styles, visited, styleId =>
    if styleId ∈ visited then none
    else
      match lookupLast styles styleId with
      | none => none
      | some style =>
        let props0 : Option StyleParagraphProps :=
          match style.basedOn with
          | some b => getStyleParagraphPropsFuel fuel styles (styleId :: visited) b
          | none => none
        match style.paragraphProps with
        | none => props0
        | some sp =>
          let props1 := props0.getD {}
          let props2 :=
            if jsTruthy sp.alignment then { props1 with alignment := sp.alignment } else props1
          let props3 :=
            match sp.indentation with
            | some si =>
              let base := props2.indentation.getD {}
              { props2 with
                indentation := some { left := ovr si.left base.left,
                                      right := ovr si.right base.right,
                                      firstLine := ovr si.firstLine base.firstLine } }
            | none => props2
          some props3

/-- Embedding of `getStyleParagraphProps`: resolve inherited paragraph
properties along the `basedOn` chain (child overrides parent per field),
with the visited set guarding against cycles. -/
def getStyleParagraphProps (styles : List (String × StyleDefinition)) (visited : List String)
    (styleId : String) : Option StyleParagraphProps :=
  getStyleParagraphPropsFuel (unvisitedCount styles visited + 1) styles visited styleId

/-- Fuelled form of `getStyleRunProperties`'s recursion. -/
def getStyleRunPropsFuel :
    Nat → List (String × StyleDefinition) → List String → String → Option RunProperties
  | 0, _, _, _ => none
  | fuel + 1, styles, visited, styleId =>
    if styleId ∈ visited then none
    else
      match lookupLast styles styleId with
      | none => none
      | some style =>
        let props0 : RunProperties :=
          match style.basedOn with
          | some b =>
            match getStyleRunPropsFuel fuel styles (styleId :: visited) b with
            | some parentProps => parentProps
            | none => {}
          | none => {}
        let props1 :=
          match style.runProperties with
          | some rp => mergeRunProperties props0 rp
          | none => props0
        if hasAnyRunProp props1 then some props1 else none

/-- Embedding of `getStyleRunProperties`: resolve inherited run properties
along the `basedOn` chain (merged child-over-parent), with the visited set
guarding against cycles; an all-empty result is `undefined`. -/
def getStyleRunProperties (styles : List (String × StyleDefinition)) (visited : List String)
    (styleId : String) : Option RunProperties :=
  getStyleRunPropsFuel (unvisitedCount styles visited + 1) styles visited styleId

/-- Read a `w:numPr` element into a `NumberingRef` (the shared shape of the
numbering extraction in `extractParagraphProperties` and
`parseStyleDefinitions`). -/
def extractNumPr (numPr : XNode) : NumberingRef :=
  let numId : Option String :=
    match qs numPr ["w:numId", "numId"] with
    | some el =>
      let v := orT (el.getAttr "w:val") (el.getAttr "val")
      if jsTruthy v then v else none
    | none => none
  let ilvl : Option Int :=
    match qs numPr ["w:ilvl", "ilvl"] with
    | some el =>
      let v := orT (el.getAttr "w:val") (el.getAttr "val")
      match v with
      | some s => if s == "" then none else some ((parseIntM s).getD 0)
      | none => none
    | none => none
  { numId, ilvl }

/-- Read the alignment/indentation pair from a `w:pPr` element, dropping it
when both are empty (the shared `paragraphProps` shape of
`parseStyleDefinitions` and `parseNumberingDefinitions`). -/
def extractStyleParagraphProps (pPr : XNode) : Option StyleParagraphProps :=
  let alignment : Option String :=
    match qs pPr ["w:jc", "jc"] with
    | some el =>
      let v := orT (el.getAttr "w:val") (el.getAttr "val")
      match v with
      | some s => if s == "" then none else some (jcToAlignment s)
      | none => none
    | none => none
  let indentation : Option Indentation :=
    match qs pPr ["w:ind", "ind"] with
    | some el => some (extractIndentation el)
    | none => none
  if alignment.isSome || indentation.isSome then some { alignment, indentation } else none

/-- Embedding of `parseStyleDefinitions` (styles.xml → id-keyed style map;
the map is an association list whose lookup takes the last `set`). -/
def parseStyleDefinitions (stylesXml : Option XNode) : List (String × StyleDefinition) :=
  match stylesXml with
  | none => []
  | some doc =>
    (qsa doc ["w:style", "style"]).foldl (fun styles styleEl =>
      let sid := orT (styleEl.getAttr "w:styleId") (styleEl.getAttr "styleId")
      if !(jsTruthy sid) then styles
      else
        let styleId := sid.getD ""
        let basedOn : Option String :=
          match qs styleEl ["w:basedOn", "basedOn"] with
          | some el =>
            let v := orT (el.getAttr "w:val") (el.getAttr "val")
            if jsTruthy v then v else none
          | none => none
        let pPrEl := qs styleEl ["w:pPr", "pPr"]
        let numbering : Option NumberingRef :=
          match pPrEl with
          | some pPr => (qs pPr ["w:numPr", "numPr"]).map extractNumPr
          | none => none
        let paragraphProps : Option StyleParagraphProps := pPrEl.bind extractStyleParagraphProps
        let runPropsFromPPr : Option RunProperties :=
          pPrEl.bind (fun pPr => (qs pPr ["w:rPr", "rPr"]).map (fun r => extractRunProperties (some r)))
        let runProperties : Option RunProperties :=
          match runPropsFromPPr with
          | some rp => some rp
          | none => (qs styleEl ["w:rPr", "rPr"]).map (fun r => extractRunProperties (some r))
        styles ++ [(styleId, { styleId, basedOn, numbering, paragraphProps, runProperties })]
    ) []

/-- Embedding of `parseNumberingDefinitions` (numbering.xml: `abstractNum`
level tables, then the `num` → `abstractNum` instance mapping). -/
def parseNumberingDefinitions (numberingXml : Option XNode) : List (String × NumberingDefinition) :=
  match numberingXml with
  | none => []
  | some doc =>
    let abstractNums : List (String × List (Int × LevelDefinition)) :=
      (qsa doc ["w:abstractNum", "abstractNum"]).foldl (fun acc absEl =>
        let aid := orT (absEl.getAttr "w:abstractNumId") (absEl.getAttr "abstractNumId")
        if !(jsTruthy aid) then acc
        else
          let levels := (qsa absEl ["w:lvl", "lvl"]).foldl (fun lvls lvlEl =>
            match orT (lvlEl.getAttr "w:ilvl") (lvlEl.getAttr "ilvl") with
            | none => lvls
            | some s =>
              let level : Int := (parseIntM s).getD 0
              let numFmt := orVal
                (match qs lvlEl ["w:numFmt", "numFmt"] with
                 | some el => orT (el.getAttr "w:val") (el.getAttr "val")
                 | none => none) "decimal"
              let lvlText := orVal
                (match qs lvlEl ["w:lvlText", "lvlText"] with
                 | some el => orT (el.getAttr "w:val") (el.getAttr "val")
                 | none => none) "%1"
              let start : Option Int :=
                match qs lvlEl ["w:start", "start"] with
                | some el =>
                  match orT (el.getAttr "w:val") (el.getAttr "val") with
                  | some sv => if sv == "" then none else some ((parseIntM sv).getD 0)
                  | none => none
                | none => none
              let paragraphProps := (qs lvlEl ["w:pPr", "pPr"]).bind extractStyleParagraphProps
              lvls ++ [(level, { numFmt, lvlText, start, paragraphProps })]
          ) []
          acc ++ [(aid.getD "", levels)]
      ) []
    (qsa doc ["w:num", "num"]).foldl (fun defs numEl =>
      let numId := orT (numEl.getAttr "w:numId") (numEl.getAttr "numId")
      if !(jsTruthy numId) then defs
      else
        let aidOpt :=
          match qs numEl ["w:abstractNumId", "abstractNumId"] with
          | some el => orT (el.getAttr "w:val") (el.getAttr "val")
          | none => none
        if jsTruthy aidOpt then
          match lookupLast abstractNums (aidOpt.getD "") with
          | some levels =>
            defs ++ [(numId.getD "", { abstractNumId := aidOpt.getD "", levels })]
          | none => defs
        else defs
    ) []

/-- Embedding of `getNumberingParagraphProps`: paragraph formatting implied
by a numbering level definition. -/
def getNumberingParagraphProps (effectiveNumbering : Option NumberingRef)
    (defs : List (String × NumberingDefinition)) : Option StyleParagraphProps :=
  match effectiveNumbering with
  | none => none
  | some en =>
    if !(jsTruthy en.numId) then none
    else
      match lookupLast defs (en.numId.getD "") with
      | none => none
      | some dfn =>
        let level : Int := en.ilvl.getD 0
        match lookupLast dfn.levels level with
        | some levelDef => levelDef.paragraphProps
        | none => none

/-- Embedding of `getEffectiveNumbering`: the direct `numPr` reference wins;
otherwise the paragraph style chain is consulted. -/
def getEffectiveNumbering (paragraphProps : ParagraphProperties)
    (styles : List (String × StyleDefinition)) : Option NumberingRef :=
  if jsTruthy (paragraphProps.numbering.bind (fun n => n.numId)) then paragraphProps.numbering
  else
    match paragraphProps.pStyle with
    | some ps => if ps == "" then none else getStyleNumbering styles [] ps
    | none => none

/-- Embedding of `createParagraphStyles`: merge style, numbering-level and
direct paragraph formatting (in that precedence order) into inline CSS. -/
def createParagraphStyles (props : ParagraphProperties)
    (styles : List (String × StyleDefinition)) (defs : List (String × NumberingDefinition))
    (effectiveNumbering : Option NumberingRef) : String :=
  let styleProps : Option StyleParagraphProps :=
    if jsTruthy props.pStyle then getStyleParagraphProps styles [] (props.pStyle.getD "")
    else none
  let numberingProps : Option StyleParagraphProps :=
    match effectiveNumbering with
    | some _ => getNumberingParagraphProps effectiveNumbering defs
    | none => none
  let alignment :=
    orT props.alignment
      (orT (numberingProps.bind (fun p => p.alignment)) (styleProps.bind (fun p => p.alignment)))
  let out0 : List String :=
    if jsTruthy alignment then ["text-align: " ++ alignment.getD ""] else []
  let sInd := styleProps.bind (fun p => p.indentation)
  let nInd := numberingProps.bind (fun p => p.indentation)
  let iLeft := ovr (props.indentation.bind (fun i => i.left))
    (ovr (nInd.bind (fun i => i.left)) (sInd.bind (fun i => i.left)))
  let iRight := ovr (props.indentation.bind (fun i => i.right))
    (ovr (nInd.bind (fun i => i.right)) (sInd.bind (fun i => i.right)))
  let iFirst := ovr (props.indentation.bind (fun i => i.firstLine))
    (ovr (nInd.bind (fun i => i.firstLine)) (sInd.bind (fun i => i.firstLine)))
  let out1 := out0 ++ (match iLeft with
    | some v => ["margin-left: " ++ toString (twipsToPixels v) ++ "px"]
    | none => [])
  let out2 := out1 ++ (match iRight with
    | some v => ["margin-right: " ++ toString (twipsToPixels v) ++ "px"]
    | none => [])
  let out3 := out2 ++ (match iFirst with
    | some v => ["text-indent: " ++ toString (twipsToPixels v) ++ "px"]
    | none => [])
  jsJoinSep "; " out3

/-! ## Numbering counters and marker text

The transformer imports `getNumberingText`, `createNumberingCounters`,
`getOrCreateCounter` and `incrementCounter` from a `./numbering` module whose
source is not part of the repository snapshot; these four definitions are
modelled from the specification (mutation of the live counter object becomes
explicit state passing). -/

/-- Modelled from the spec: the missing `./numbering` module's
`NumberingCounter` — per list instance, an ordered array of per-level integer
counters (absent entries read as the default start value 0). -/
structure NumberingCounter where
  counters : List Int
deriving DecidableEq

/-- The per-pass table of live counters, keyed by list instance id. -/
abbrev NumberingCounters : Type := List (String × NumberingCounter)

/-- Modelled from the spec: `createNumberingCounters` — the empty table. -/
def createNumberingCounters : NumberingCounters := []

/-- Modelled from the spec: `getOrCreateCounter(counters, numId)` returns the
counter for the list instance, created on first reference. -/
def getOrCreateCounter (cs : NumberingCounters) (numId : String) :
    NumberingCounter × NumberingCounters :=
  match lookupLast cs numId with
  | some c => (c, cs)
  | none => ({ counters := [] }, cs ++ [(numId, { counters := [] })])

/-- Store an updated counter back into the table (the in-place mutation of
the JS counter object). -/
def saveCounter (cs : NumberingCounters) (numId : String) (c : NumberingCounter) :
    NumberingCounters :=
  cs ++ [(numId, c)]

/-- The stored value of a counter at a level (`counter.counters[level] || 0`;
a negative index reads as the 0 default). -/
def counterValue (c : NumberingCounter) (level : Int) : Int :=
  if level < 0 then 0 else c.counters.getD level.toNat 0

/-- Modelled from the spec: `incrementCounter(counter, level)` increments the
counter at `level` by 1, resets every counter at a deeper level to its
configured start (default 0), and returns the new value at `level`. -/
def incrementCounter (c : NumberingCounter) (level : Int) : Int × NumberingCounter :=
  let lv := level.toNat
  let len := max c.counters.length (lv + 1)
  let newVal := counterValue c level + 1
  let newCounters :=
    (List.range len).map (fun i => if i < lv then c.counters.getD i 0 else if i = lv then newVal else 0)
  (newVal, { counters := newCounters })

/-- Repeat a string `k` times. -/
def strRepeat (s : String) (k : Nat) : String :=
  jsJoinSep "" (List.replicate k s)

/-- Lower-case roman numeral of a positive number. -/
def romanOf (n : Nat) : String :=
  (([(1000, "m"), (900, "cm"), (500, "d"), (400, "cd"), (100, "c"), (90, "xc"),
     (50, "l"), (40, "xl"), (10, "x"), (9, "ix"), (5, "v"), (4, "iv"), (1, "i")]
    : List (Nat × String)).foldl
    (fun (acc : String × Nat) p => (acc.1 ++ strRepeat p.2 (acc.2 / p.1), acc.2 % p.1))
    ("", n)).1

/-- Word-style letter numbering: `a..z`, then `aa..zz`, and so on. -/
def letterText (n : Nat) (upper : Bool) : String :=
  if n = 0 then ""
  else
    let base := if upper then 'A'.toNat else 'a'.toNat
    strRepeat (String.mk [Char.ofNat (base + ((n - 1) % 26))]) ((n - 1) / 26 + 1)

/-- English ordinal suffix rendering (`1st`, `2nd`, `3rd`, `4th`, ...). -/
def ordinalOf (value : Int) : String :=
  let m100 := value.emod 100
  let m10 := value.emod 10
  let suffix :=
    if 11 ≤ m100 && m100 ≤ 13 then "th"
    else if m10 = 1 then "st"
    else if m10 = 2 then "nd"
    else if m10 = 3 then "rd"
    else "th"
  toString value ++ suffix

/-- Modelled from the spec: the missing `./numbering` module's
`getNumberingText(value, scheme)` — format one counter value per numbering
kind (decimal, letters, roman, ordinal, bullet; the `cardinalText` and
`ordinalText` word forms are modelled as decimal since the spec gives no word
table, and no claim exercises them). -/
def getNumberingText (value : Int) (scheme : String) : String :=
  if scheme == "decimal" then toString value
  else if scheme == "bullet" then "•"
  else if scheme == "lowerLetter" then
    (if value < 1 then toString value else letterText value.toNat false)
  else if scheme == "upperLetter" then
    (if value < 1 then toString value else letterText value.toNat true)
  else if scheme == "lowerRoman" then
    (if value < 1 then toString value else romanOf value.toNat)
  else if scheme == "upperRoman" then
    (if value < 1 then toString value else ⟨(romanOf value.toNat).data.map (fun c => Char.ofNat (c.toNat - 32))⟩)
  else if scheme == "ordinal" then ordinalOf value
  else toString value

/-- The `numFmt` → scheme mapping of `applyLevelText` (the if-chain keeps the
listed Word names and defaults everything else to decimal). -/
def mapScheme (numFmt : String) : String :=
  if numFmt == "lowerLetter" || numFmt == "upperLetter" || numFmt == "lowerRoman" ||
     numFmt == "upperRoman" || numFmt == "ordinal" || numFmt == "cardinalText" ||
     numFmt == "ordinalText" || numFmt == "bullet" then numFmt
  else "decimal"

/-- Embedding of `applyLevelText`: substitute the `%k` placeholders of a
level-text template with formatted counter values. -/
def applyLevelText (lvlText : String) (counter : NumberingCounter) (currentLevel : Int)
    (definitions : List (String × NumberingDefinition)) (numId : String) : String :=
  match lookupLast definitions numId with
  | none => lvlText
  | some dfn =>
    let iterations : List Nat :=
      if currentLevel < 0 then [] else List.range (currentLevel.toNat + 1)
    iterations.foldl (fun result level =>
      let placeholder := "%" ++ toString (level + 1)
      if jsIncludes result placeholder then
        let cv := counterValue counter (level : Int)
        match lookupLast dfn.levels (level : Int) with
        | some levelDef => jsReplaceFirst result placeholder (getNumberingText cv (mapScheme levelDef.numFmt))
        | none => jsReplaceFirst result placeholder (toString cv)
      else result) lvlText

/-! ## Revision detection, notes, runs and paragraphs -/

/-- Per-character entity replacement of the DOM text-node serializer
(`escapeHtml` assigns text to a detached element's `textContent` and reads
back `innerHTML`). -/
def escapeChar (c : Char) : String :=
  if c = '&' then "&amp;"
  else if c = '<' then "&lt;"
  else if c = '>' then "&gt;"
  else String.mk [c]

/-- Embedding of `escapeHtml`: the source assigns the text to a detached
DOM element's `textContent` and reads back `innerHTML`, which serializes a
text node by replacing the markup-significant characters with entities. -/
def escapeHtml (text : String) : String :=
  jsJoinSep "" (text.data.map escapeChar)

/-- Classify one node against the four tracked-change wrapper kinds
(`extractRevisionInfo`'s case-insensitive tag tests). -/
def revisionOfTag (n : XNode) : Option Revision :=
  let t := lowerStr n.tagOf
  let rd (kind : String) : Revision :=
    { type := kind,
      author := toUndef (orT (n.getAttr "w:author") (n.getAttr "author")),
      date := toUndef (orT (n.getAttr "w:date") (n.getAttr "date")),
      id := toUndef (orT (n.getAttr "w:id") (n.getAttr "id")) }
  if t == "ins" || t == "w:ins" then some (rd "insertion")
  else if t == "del" || t == "w:del" then some (rd "deletion")
  else if t == "movefrom" || t == "w:movefrom" then some (rd "moveFrom")
  else if t == "moveto" || t == "w:moveto" then some (rd "moveTo")
  else none

/-- Embedding of `extractRevisionInfo`: the source walks from the element up
through its DOM parents; here the element together with its ancestor chain is
passed explicitly (innermost first) since the tree model has no parent
pointers. -/
def extractRevisionInfo (nodes : List XNode) : Option Revision :=
  match nodes with
  | [] => none
  | n :: rest =>
    match revisionOfTag n with
    | some r => some r
    | none => extractRevisionInfo rest

/-- Embedding of `DocumentFootnote` (types.ts): one parsed footnote or
endnote. -/
structure DocumentFootnote where
  id : String
  type : String
  content : String
  plainText : String
  documentId : String
  noteType : String
deriving DecidableEq

/-- Embedding of `NoteContext`: id-keyed lookup tables for notes. -/
structure NoteContext where
  footnotes : List (String × DocumentFootnote)
  endnotes : List (String × DocumentFootnote)

/-- Embedding of `createNoteContext`: key each note by the tail of its
prefixed id. -/
def createNoteContext (footnotes endnotes : List DocumentFootnote) : NoteContext :=
  { footnotes := footnotes.map (fun n => (idTail n.id, n)),
    endnotes := endnotes.map (fun n => (idTail n.id, n)) }

/-- Embedding of `TransformContext`; the numbering counters, which the source
mutates in place inside the context, are threaded separately as explicit
state. -/
structure TransformContext where
  notes : NoteContext
  numberingDefs : List (String × NumberingDefinition)
  styles : List (String × StyleDefinition)

/-- The merged effective run properties computed in `transformRun` (steps 1-4
of its inheritance chain, before the tracked-change overlay). -/
def mergedRunPropsOf (directRunProps : RunProperties)
    (paragraphProps : Option ParagraphProperties)
    (styles : List (String × StyleDefinition)) : RunProperties :=
  let m0 : RunProperties := {}
  let m1 :=
    match paragraphProps with
    | some pp =>
      if jsTruthy pp.pStyle then
        match getStyleRunProperties styles [] (pp.pStyle.getD "") with
        | some styleRunProps => mergeRunProperties m0 styleRunProps
        | none => m0
      else m0
    | none => m0
  let m2 :=
    match paragraphProps with
    | some pp =>
      match pp.runProperties with
      | some rp => mergeRunProperties m1 rp
      | none => m1
    | none => m1
  let m3 :=
    if jsTruthy directRunProps.rStyle then
      match getStyleRunProperties styles [] (directRunProps.rStyle.getD "") with
      | some charStyleRunProps => mergeRunProperties m2 charStyleRunProps
      | none => m2
    else m2
  mergeRunProperties m3 directRunProps

/-- Embedding of `transformRun`: one Word run to HTML.  `chain` is the run's
ancestor chain (innermost first), standing in for the DOM parent walk of the
revision detector. -/
def transformRun (runElement : XNode) (chain : List XNode) (ctx : TransformContext)
    (paragraphProps : Option ParagraphProperties) : String :=
  let revisionInfo := extractRevisionInfo (runElement :: chain)
  let rPrElement := qs runElement ["w:rPr", "rPr"]
  let directRunProps := extractRunProperties rPrElement
  let merged0 := mergedRunPropsOf directRunProps paragraphProps ctx.styles
  let mergedRunProps :=
    match revisionInfo with
    | some r => { merged0 with revision := some r }
    | none => merged0
  let fnOut : Option String :=
    match qs runElement ["w:footnoteReference", "footnoteReference"] with
    | some fr =>
      let idOpt := orT (fr.getAttr "w:id") (fr.getAttr "id")
      if jsTruthy idOpt && (lookupLast ctx.notes.footnotes (idOpt.getD "")).isSome then
        let id := idOpt.getD ""
        some ("<sup><a href=\"#footnote-" ++ id ++ "\" id=\"footnote-ref-" ++ id ++
          "\" class=\"footnote-link\">" ++ id ++ "</a></sup>")
      else none
    | none => none
  match fnOut with
  | some s => s
  | none =>
    let enOut : Option String :=
      match qs runElement ["w:endnoteReference", "endnoteReference"] with
      | some er =>
        let idOpt := orT (er.getAttr "w:id") (er.getAttr "id")
        if jsTruthy idOpt && (lookupLast ctx.notes.endnotes (idOpt.getD "")).isSome then
          let id := idOpt.getD ""
          some ("<sup><a href=\"#endnote-" ++ id ++ "\" id=\"endnote-ref-" ++ id ++
            "\" class=\"endnote-link\">" ++ id ++ "</a></sup>")
        else none
      | none => none
    match enOut with
    | some s => s
    | none =>
      let text := jsJoinSep "" ((qsa runElement ["w:t", "t"]).map (fun el => el.textContent))
      if jsTrim text == "" then ""
      else
        let stylesStr := createRunStyles mergedRunProps
        if stylesStr == "" then escapeHtml text
        else "<span style=\"" ++ stylesStr ++ "\">" ++ escapeHtml text ++ "</span>"

/-- Embedding of `getNumberingRunProperties`: the paragraph-level run
properties (paragraph style, then paragraph-direct) used to style a
numbering marker. -/
def getNumberingRunProperties (paragraphProps : ParagraphProperties)
    (styles : List (String × StyleDefinition)) : RunProperties :=
  let m0 : RunProperties := {}
  let m1 :=
    if jsTruthy paragraphProps.pStyle then
      match getStyleRunProperties styles [] (paragraphProps.pStyle.getD "") with
      | some styleRunProps => mergeRunProperties m0 styleRunProps
      | none => m0
    else m0
  match paragraphProps.runProperties with
  | some rp => mergeRunProperties m1 rp
  | none => m1

/-- `querySelectorAll` keeping each match's ancestor chain. -/
def qsaC (n : XNode) (tags : List String) (anc : List XNode) : List (XNode × List XNode) :=
  (XNode.subEls n anc).filter (fun pc =>
    match pc.1 with
    | .elem t _ _ => tags.contains t
    | .text _ => false)

/-- State-threading `map` (the explicit form of the source's maps that
mutate the numbering counters while iterating). -/
def mapThread {σ α β : Type} (f : σ → α → β × σ) : σ → List α → List β × σ
  | s, [] => ([], s)
  | s, a :: as =>
    let r := f s a
    let rest := mapThread f r.2 as
    (r.1 :: rest.1, rest.2)

/-- Output of `transformDocumentToHtml`. -/
structure TransformedContent where
  html : String
  plainText : String
deriving DecidableEq

/-- Embedding of `transformParagraph`: one Word paragraph to HTML, threading
the numbering-counter state; `outerAnc` is the paragraph's ancestor chain. -/
def transformParagraph (outerAnc : List XNode) (paragraphElement : XNode)
    (ctx : TransformContext) (counters : NumberingCounters) : String × NumberingCounters :=
  let pPrElement := qs paragraphElement ["w:pPr", "pPr"]
  let paragraphProps := extractParagraphProperties pPrElement
  let effectiveNumbering := getEffectiveNumbering paragraphProps ctx.styles
  let markerSt : String × NumberingCounters :=
    match effectiveNumbering with
    | some en =>
      if jsTruthy en.numId then
        let numId := en.numId.getD ""
        let gc := getOrCreateCounter counters numId
        let level : Int := en.ilvl.getD 0
        let ic := incrementCounter gc.1 level
        let counters2 := saveCounter gc.2 numId ic.2
        let numberingRunProps := getNumberingRunProperties paragraphProps ctx.styles
        let numberingStyles := createRunStyles numberingRunProps
        let marker :=
          match lookupLast ctx.numberingDefs numId with
          | some dfn =>
            match lookupLast dfn.levels level with
            | some levelDef =>
              let numberingText := applyLevelText levelDef.lvlText ic.2 level ctx.numberingDefs numId
              if numberingStyles == "" then
                "<span class=\"numbering-text\">" ++ numberingText ++ " </span>"
              else
                "<span class=\"numbering-text\" style=\"" ++ numberingStyles ++ "\">" ++
                  numberingText ++ " </span>"
            | none =>
              let numberingText := getNumberingText ic.1 "decimal"
              if numberingStyles == "" then
                "<span class=\"numbering-text\">" ++ numberingText ++ ". </span>"
              else
                "<span class=\"numbering-text\" style=\"" ++ numberingStyles ++ "\">" ++
                  numberingText ++ ". </span>"
          | none =>
            let numberingText := getNumberingText ic.1 "decimal"
            if numberingStyles == "" then
              "<span class=\"numbering-text\">" ++ numberingText ++ ". </span>"
            else
              "<span class=\"numbering-text\" style=\"" ++ numberingStyles ++ "\">" ++
                numberingText ++ ". </span>"
        (marker, counters2)
      else ("", counters)
    | none => ("", counters)
  let runsWithChain := qsaC paragraphElement ["w:r", "r"] outerAnc
  let runContent := jsJoinSep ""
    ((runsWithChain.map (fun pc => transformRun pc.1 pc.2 ctx (some paragraphProps))).filter
      (fun s => !(jsTrim s == "")))
  if jsTrim runContent == "" && markerSt.1 == "" then ("<p></p>", markerSt.2)
  else
    let stylesStr := createParagraphStyles paragraphProps ctx.styles ctx.numberingDefs effectiveNumbering
    let content := markerSt.1 ++ runContent
    if stylesStr == "" then ("<p>" ++ content ++ "</p>", markerSt.2)
    else ("<p style=\"" ++ stylesStr ++ "\">" ++ content ++ "</p>", markerSt.2)

/-! ## Tables and the document orchestrator -/

/-- Table-level properties (`TableProperties` interface; the `border` field,
which the extractor never populates, is omitted). -/
structure TableProperties where
  alignment : Option String := none
  width : Option String := none
deriving DecidableEq

/-- Cell-level properties (`TableCellProperties`; `alignment` is declared in
the interface and read by the style builder but never populated by the
extractor, and the `border` field is omitted as never populated). -/
structure TableCellProperties where
  width : Option String := none
  alignment : Option String := none
  verticalAlignment : Option String := none
  background : Option String := none
deriving DecidableEq

/-- JS string interpolation of `parseInt(w) / 50` (Word stores percent table
widths in fiftieths of a percent): shortest decimal with at most two
fractional digits. -/
def pctStr (n : Int) : String :=
  let neg := n < 0
  let m := n.natAbs * 2
  let ip := m / 100
  let fr := m % 100
  let s :=
    if fr = 0 then toString ip
    else if fr % 10 = 0 then toString ip ++ "." ++ toString (fr / 10)
    else toString ip ++ "." ++ (if fr < 10 then "0" ++ toString fr else toString fr)
  (if neg && !(m = 0) then "-" else "") ++ s

/-- The width computation shared by `extractTableProperties` and
`extractTableCellProperties` (`pct` and `dxa` width types). -/
def extractWidth (el : XNode) : Option String :=
  let wVal := orT (el.getAttr "w:w") (el.getAttr "w")
  let wType := orT (el.getAttr "w:type") (el.getAttr "type")
  if jsTruthy wVal && jsTruthy wType then
    let n := (parseIntM (wVal.getD "")).getD 0
    if wType == some "pct" then some (pctStr n ++ "%")
    else if wType == some "dxa" then some (toString (twipsToPixels n) ++ "px")
    else none
  else none

/-- Embedding of `extractTableProperties`. -/
def extractTableProperties (tblPrElement : Option XNode) : TableProperties :=
  match tblPrElement with
  | none => {}
  | some tblPr =>
    let alignment : Option String :=
      match qs tblPr ["w:jc", "jc"] with
      | some el =>
        let v := orT (el.getAttr "w:val") (el.getAttr "val")
        match v with
        | some s =>
          if s == "" then none
          else if s == "center" then some "center"
          else if s == "right" then some "right"
          else some "left"
        | none => none
      | none => none
    let width : Option String := (qs tblPr ["w:tblW", "tblW"]).bind extractWidth
    { alignment, width }

/-- Embedding of `extractTableCellProperties`. -/
def extractTableCellProperties (tcPrElement : Option XNode) : TableCellProperties :=
  match tcPrElement with
  | none => {}
  | some tcPr =>
    let width : Option String := (qs tcPr ["w:tcW", "tcW"]).bind extractWidth
    let verticalAlignment : Option String :=
      match qs tcPr ["w:vAlign", "vAlign"] with
      | some el =>
        let v := orT (el.getAttr "w:val") (el.getAttr "val")
        match v with
        | some s =>
          if s == "" then none
          else if s == "center" then some "middle"
          else if s == "bottom" then some "bottom"
          else some "top"
        | none => none
      | none => none
    let background : Option String :=
      match qs tcPr ["w:shd", "shd"] with
      | some el =>
        let v := orT (el.getAttr "w:fill") (el.getAttr "fill")
        match v with
        | some s => if s == "" || s == "auto" || s == "ffffff" then none else some ("#" ++ s)
        | none => none
      | none => none
    { width, alignment := none, verticalAlignment, background }

/-- Embedding of `createTableStyles`. -/
def createTableStyles (props : TableProperties) : String :=
  let out0 := ["border-collapse: collapse", "width: 100%"]
  let out1 :=
    match props.alignment with
    | some a =>
      if a == "center" then out0 ++ ["margin-left: auto", "margin-right: auto"]
      else if a == "right" then out0 ++ ["margin-left: auto"]
      else out0
    | none => out0
  let out2 :=
    match props.width with
    | some w => out1 ++ ["width: " ++ w]
    | none => out1
  jsJoinSep "; " out2

/-- Embedding of `createTableCellStyles`. -/
def createTableCellStyles (props : TableCellProperties) : String :=
  let out0 := ["border: 1px solid #ddd", "padding: 8px"]
  let out1 := match props.width with
    | some w => out0 ++ ["width: " ++ w]
    | none => out0
  let out2 := match props.alignment with
    | some a => out1 ++ ["text-align: " ++ a]
    | none => out1
  let out3 := match props.verticalAlignment with
    | some v => out2 ++ ["vertical-align: " ++ v]
    | none => out2
  let out4 := match props.background with
    | some b => out3 ++ ["background-color: " ++ b]
    | none => out3
  jsJoinSep "; " out4

/-- Embedding of `transformTableCell`, threading the numbering counters. -/
def transformTableCell (cellElement : XNode) (cellAnc : List XNode) (ctx : TransformContext)
    (counters : NumberingCounters) : String × NumberingCounters :=
  let tcPrElement := qs cellElement ["w:tcPr", "tcPr"]
  let cellProps := extractTableCellProperties tcPrElement
  let paras := qsaC cellElement ["w:p", "p"] cellAnc
  let mt := mapThread (fun cs pc => transformParagraph pc.2 pc.1 ctx cs) counters paras
  let cellContent0 := jsJoinSep "\n" (mt.1.filter (fun s => !(jsTrim s == "")))
  let cellContent := if jsTrim cellContent0 == "" then "<p></p>" else cellContent0
  let stylesStr := createTableCellStyles cellProps
  ("<td style=\"" ++ stylesStr ++ "\">" ++ cellContent ++ "</td>", mt.2)

/-- Embedding of `transformTableRow`. -/
def transformTableRow (rowElement : XNode) (rowAnc : List XNode) (ctx : TransformContext)
    (counters : NumberingCounters) : String × NumberingCounters :=
  let cells := qsaC rowElement ["w:tc", "tc"] rowAnc
  let mt := mapThread (fun cs pc => transformTableCell pc.1 pc.2 ctx cs) counters cells
  let cellContent := jsJoinSep "" (mt.1.filter (fun s => !(jsTrim s == "")))
  if jsTrim cellContent == "" then ("<tr><td></td></tr>", mt.2)
  else ("<tr>" ++ cellContent ++ "</tr>", mt.2)

/-- Embedding of `transformTable`. -/
def transformTable (tableElement : XNode) (tableAnc : List XNode) (ctx : TransformContext)
    (counters : NumberingCounters) : String × NumberingCounters :=
  let tblPrElement := qs tableElement ["w:tblPr", "tblPr"]
  let tableProps := extractTableProperties tblPrElement
  let rows := qsaC tableElement ["w:tr", "tr"] tableAnc
  let mt := mapThread (fun cs pc => transformTableRow pc.1 pc.2 ctx cs) counters rows
  let rowContent := jsJoinSep "\n" (mt.1.filter (fun s => !(jsTrim s == "")))
  if jsTrim rowContent == "" then ("<table><tr><td></td></tr></table>", mt.2)
  else
    let stylesStr := createTableStyles tableProps
    ("<table style=\"" ++ stylesStr ++ "\">\n" ++ rowContent ++ "\n</table>", mt.2)

/-- One appended footnote/endnote block (the template literal of
`transformDocumentToHtml`, whitespace exact; `kind` is `footnote` or
`endnote`).  The note's `content` is interpolated raw, without
`escapeHtml`. -/
def noteBlock (kind : String) (note : DocumentFootnote) : String :=
  let id := idTail note.id
  "<div class=\"" ++ kind ++ "\" id=\"" ++ kind ++ "-" ++ id ++ "\">\n          <a href=\"#" ++
    kind ++ "-ref-" ++ id ++ "\" class=\"" ++ kind ++ "-backlink\">" ++ id ++ ".</a> " ++
    note.content ++ "\n        </div>"

/-- Embedding of `transformDocumentToHtml`: walk the body once, then append
note blocks and produce the plain-text projection. -/
def transformDocumentToHtml (documentXml : XNode) (footnotes endnotes : List DocumentFootnote)
    (numberingXml stylesXml : Option XNode) : TransformedContent :=
  let noteContext := createNoteContext footnotes endnotes
  let numberingDefinitions := parseNumberingDefinitions numberingXml
  let styleDefinitions := parseStyleDefinitions stylesXml
  let ctx : TransformContext :=
    { notes := noteContext, numberingDefs := numberingDefinitions, styles := styleDefinitions }
  match (qsaC documentXml ["w:body", "body"] []).head? with
  | none =>
    { html := "<p>No document content found.</p>", plainText := "No document content found." }
  | some bodyC =>
    let body := bodyC.1
    let bodyChain := body :: bodyC.2
    let isP (t : String) : Bool := lowerStr t == "p" || lowerStr t == "w:p"
    let isTbl (t : String) : Bool := lowerStr t == "tbl" || lowerStr t == "w:tbl"
    let contentElements := body.kids.filter (fun e =>
      match e with
      | .elem t _ _ => isP t || isTbl t
      | .text _ => false)
    if contentElements.length = 0 then
      { html := "<p>No content found in document.</p>",
        plainText := "No content found in document." }
    else
      let mt := mapThread (fun cs el =>
        match el with
        | .elem t _ _ =>
          if isP t then transformParagraph bodyChain el ctx cs
          else if isTbl t then transformTable el bodyChain ctx cs
          else ("", cs)
        | .text _ => ("", cs)) createNumberingCounters contentElements
      let htmlParts := mt.1.filter (fun s => !(jsTrim s == ""))
      let html0 := jsJoinSep "\n" htmlParts
      let footnoteHtml := jsJoinSep "\n"
        ((footnotes.filter (fun n => n.noteType == "normal")).map (noteBlock "footnote"))
      let html1 :=
        if footnotes.length > 0 && !(footnoteHtml == "") then
          html0 ++ "\n<div class=\"footnotes\">\n<hr class=\"footnotes-separator\">\n" ++
            footnoteHtml ++ "\n</div>"
        else html0
      let endnoteHtml := jsJoinSep "\n"
        ((endnotes.filter (fun n => n.noteType == "normal")).map (noteBlock "endnote"))
      let html2 :=
        if endnotes.length > 0 && !(endnoteHtml == "") then
          html1 ++ "\n<div class=\"endnotes\">\n<hr class=\"endnotes-separator\">\n" ++
            endnoteHtml ++ "\n</div>"
        else html1
      let paragraphElements := qsa body ["w:p", "p"]
      let mainText := jsJoinSep "\n"
        ((paragraphElements.map (fun p =>
          jsJoinSep "" ((qsa p ["w:t", "t"]).map (fun t => t.textContent)))).filter
          (fun s => !(jsTrim s == "")))
      let footnoteText := jsJoinSep " " (footnotes.map (fun n => n.plainText))
      let endnoteText := jsJoinSep " " (endnotes.map (fun n => n.plainText))
      let plainText := jsJoinSep "\n"
        (([mainText, footnoteText, endnoteText]).filter (fun s => !(jsTrim s == "")))
      { html := if html2 == "" then "<p>No content to display.</p>" else html2,
        plainText := if plainText == "" then "No content to display." else plainText }

/-! ## Comment parsing and threading (docxParser.ts)

A `.docx` package is modelled after zip extraction and XML parsing: each
field is the parsed DOM of one part, `none` standing for both an absent zip
entry and an XML parse failure (both make the source skip the part). -/

/-- Embedding of `DocumentComment` (types.ts, as populated by the parser).
The `date` field keeps the raw `w:date` attribute string; the source wraps
it in a JS `Date` (and uses the current time when the attribute is absent,
modelled as `none`). -/
structure DocumentComment where
  id : String
  paraId : Option String := none
  author : String
  initial : String
  date : Option String := none
  plainText : String
  content : String
  documentId : String
  reference : String
  done : Option Bool := none
  parentId : Option String := none
  durableId : Option String := none
  children : Option (List String) := none
deriving DecidableEq

/-- Extended per-comment data from commentsExtended.xml. -/
structure ExtendedCommentData where
  done : Option Bool := none
  parentId : Option String := none
deriving DecidableEq

/-- The run text of one paragraph inside a comment or note (the nested
`querySelectorAll` joins of the source). -/
def commentParaRunText (pEl : XNode) : String :=
  jsJoinSep "" ((qsa pEl ["w:r", "r"]).map (fun r =>
    jsJoinSep "" ((qsa r ["w:t", "t"]).map (fun t => t.textContent))))

/-- The per-record body of `parseCommentsXml`'s forEach: parse one indexed
`<comment>` element, pushing a record exactly when its extracted content and
plain text are non-empty. -/
def parseOneComment (documentId : String) (p : Nat × XNode) : Option DocumentComment :=
  let index := p.1
  let commentEl := p.2
  let id := orVal (orT (commentEl.getAttr "w:id") (commentEl.getAttr "id"))
    ("comment-" ++ toString index)
  let author := orVal (orT (commentEl.getAttr "w:author") (commentEl.getAttr "author")) "Unknown"
  let initial := orVal (orT (commentEl.getAttr "w:initials") (commentEl.getAttr "initials")) ""
  let dateStr := orVal (orT (commentEl.getAttr "w:date") (commentEl.getAttr "date")) ""
  let paragraphElements := qsa commentEl ["w:p", "p"]
  let paraId : Option String :=
    match paragraphElements.getLast? with
    | some lastPara =>
      let attr := orT (lastPara.getAttr "w14:paraId")
        (orT (lastPara.getAttr "w:paraId") (lastPara.getAttr "paraId"))
      if jsTruthy attr then attr else none
    | none => none
  let parts := (paragraphElements.map (fun pEl => jsTrim (commentParaRunText pEl))).filter
    (fun s => !(s == ""))
  let content := jsJoinSep "" (parts.map (fun s => "<p>" ++ s ++ "</p>"))
  let plainText := jsJoinSep " " parts
  if !(content == "") && !(plainText == "") then
    some { id := documentId ++ "-" ++ id, paraId, author, initial,
           date := if dateStr == "" then none else some dateStr,
           plainText, content, documentId, reference := "Comment " ++ id }
  else none

/-- Embedding of `parseCommentsXml`: extract the well-formed, non-empty
comment records of comments.xml (the forEach-with-conditional-push of the
source rendered as `filterMap`). -/
def parseCommentsXml (xmlDoc : XNode) (documentId : String) : List DocumentComment :=
  ((qsa xmlDoc ["w:comment", "comment"]).enum).filterMap (parseOneComment documentId)

/-- Embedding of `parseCommentsIdsXml`: the `paraId` → `durableId` table. -/
def parseCommentsIdsXml (xmlDoc : XNode) : List (String × String) :=
  (qsa xmlDoc ["w16cid:commentId", "commentId"]).foldl (fun acc el =>
    let paraId := orT (el.getAttr "w16cid:paraId") (el.getAttr "paraId")
    let durableId := orT (el.getAttr "w16cid:durableId") (el.getAttr "durableId")
    if jsTruthy paraId && jsTruthy durableId then acc ++ [(paraId.getD "", durableId.getD "")]
    else acc) []

/-- Embedding of `parseCommentsExtendedXml`: the `paraId` → done/parent
table. -/
def parseCommentsExtendedXml (xmlDoc : XNode) : List (String × ExtendedCommentData) :=
  (qsa xmlDoc ["w15:commentEx", "commentEx"]).foldl (fun acc el =>
    let idOpt := orT (el.getAttr "w15:paraId")
      (orT (el.getAttr "paraId") (orT (el.getAttr "w:id") (el.getAttr "id")))
    if !(jsTruthy idOpt) then acc
    else
      let doneAttr := orT (el.getAttr "w15:done")
        (orT (el.getAttr "done") (orT (el.getAttr "w:resolved") (el.getAttr "resolved")))
      let done : Option Bool :=
        if jsTruthy doneAttr then
          some (doneAttr == some "1" || doneAttr == some "true" || doneAttr == some "yes")
        else none
      let parentAttr := orT (el.getAttr "w15:paraIdParent")
        (orT (el.getAttr "paraIdParent")
          (orT (el.getAttr "w:parentCommentId") (el.getAttr "parentCommentId")))
      let parentId : Option String := if jsTruthy parentAttr then parentAttr else none
      if done.isSome || parentId.isSome then
        acc ++ [(idOpt.getD "", ({ done, parentId } : ExtendedCommentData))]
      else acc) []

/-- Embedding of `parseFootnotesEndnotesXml` (shared footnote/endnote
shape; separator records are skipped). -/
def parseFootnotesEndnotesXml (xmlDoc : XNode) (documentId : String) (type : String) :
    List DocumentFootnote :=
  ((qsa xmlDoc ["w:" ++ type, type]).enum).filterMap (fun p =>
    let index := p.1
    let noteEl := p.2
    let id := orVal (orT (noteEl.getAttr "w:id") (noteEl.getAttr "id"))
      (type ++ "-" ++ toString index)
    let noteType := orVal (orT (noteEl.getAttr "w:type") (noteEl.getAttr "type")) "normal"
    if noteType == "separator" || noteType == "continuationSeparator" then none
    else
      let paragraphElements := qsa noteEl ["w:p", "p"]
      let parts := (paragraphElements.map (fun pEl => jsTrim (commentParaRunText pEl))).filter
        (fun s => !(s == ""))
      let content := jsJoinSep "" (parts.map (fun s => "<p>" ++ s ++ "</p>"))
      let plainText := jsJoinSep " " parts
      if !(content == "") && !(plainText == "") then
        some { id := documentId ++ "-" ++ type ++ "-" ++ id, type, content, plainText,
               documentId, noteType }
      else none)

/-- First pass of `enhanceCommentsWithExtendedData`: attach extended data,
durable ids, the `done` default and the empty `children` array. -/
def enhancePhase1 (comments : List DocumentComment)
    (extendedData : List (String × ExtendedCommentData))
    (durableIds : List (String × String)) : List DocumentComment :=
  comments.map (fun comment =>
    let extended :=
      if jsTruthy comment.paraId then lookupLast extendedData (comment.paraId.getD "") else none
    let durableId :=
      if jsTruthy comment.paraId then lookupLast durableIds (comment.paraId.getD "") else none
    { comment with
      durableId := durableId,
      done := some ((extended.bind (fun e => e.done)).getD false),
      parentId := extended.bind (fun e => e.parentId),
      children := some [] })

/-- One `Map.set` of the threading pass's first-pass map building. -/
def stepIdx (m : List (String × Nat)) (p : Nat × DocumentComment) : List (String × Nat) :=
  if jsTruthy p.2.paraId then m ++ [(p.2.paraId.getD "", p.1)] else m

/-- The `paraId` → array-index map of the threading pass (JS `Map.set`
overwrites, so later comments shadow earlier ones with the same
`paraId`). -/
def buildParaIdIndex (enhanced : List DocumentComment) : List (String × Nat) :=
  (enhanced.enum).foldl stepIdx []

/-- Append one child `paraId` to the `children` of the comment at index `j`
(the in-place `parent.children.push`). -/
def appendChildAt (l : List DocumentComment) (j : Nat) (q : String) : List DocumentComment :=
  updateAt j (fun b => { b with children := some ((b.children.getD []) ++ [q]) }) l

/-- One iteration of the threading pass's second pass. -/
def threadStep (commentMap : List (String × Nat)) (acc : List DocumentComment)
    (comment : DocumentComment) : List DocumentComment :=
  if jsTruthy comment.parentId && jsTruthy comment.paraId then
    match lookupLast commentMap (comment.parentId.getD "") with
    | some j => appendChildAt acc j (comment.paraId.getD "")
    | none => acc
  else acc

/-- Embedding of `enhanceCommentsWithExtendedData`: first pass attaches data,
second pass links every child's `paraId` into its parent's `children`. -/
def enhanceCommentsWithExtendedData (comments : List DocumentComment)
    (extendedData : List (String × ExtendedCommentData))
    (durableIds : List (String × String)) : List DocumentComment :=
  let enhancedComments := enhancePhase1 comments extendedData durableIds
  let commentMap := buildParaIdIndex enhancedComments
  enhancedComments.foldl (threadStep commentMap) enhancedComments

/-- A `.docx` package after zip extraction and XML parsing: each field is
one part's DOM, with `none` for an absent or unparseable part. -/
structure DocxPackage where
  document : Option XNode := none
  styles : Option XNode := none
  numbering : Option XNode := none
  comments : Option XNode := none
  commentsExtended : Option XNode := none
  commentsIds : Option XNode := none
  footnotes : Option XNode := none
  endnotes : Option XNode := none

/-- Embedding of `DocxParseResult` (the record returned to the UI shell). -/
structure DocxParseResult where
  comments : List DocumentComment
  footnotes : List DocumentFootnote
  endnotes : List DocumentFootnote
  error : Option String := none
  extendedData : Option (List (String × ExtendedCommentData)) := none
  durableIds : Option (List (String × String)) := none
  transformedContent : Option TransformedContent := none
deriving DecidableEq

/-- Embedding of `parseDocxComments` from the parsed package onward: parse
each present part, enhance comments when extended data exists, fail when
document.xml is missing, and otherwise transform the body.  (The archive
decompression and `DOMParser` step is the modelling boundary; the source's
catch-all for transformer exceptions is unreachable here because the
embedded transformer is total.) -/
def parseDocxComments (pkg : DocxPackage) (documentId : String) : DocxParseResult :=
  let comments0 :=
    match pkg.comments with
    | some d => parseCommentsXml d documentId
    | none => []
  let extendedData := pkg.commentsExtended.map parseCommentsExtendedXml
  let durableIds := pkg.commentsIds.map parseCommentsIdsXml
  let footnotes :=
    match pkg.footnotes with
    | some d => parseFootnotesEndnotesXml d documentId "footnote"
    | none => []
  let endnotes :=
    match pkg.endnotes with
    | some d => parseFootnotesEndnotesXml d documentId "endnote"
    | none => []
  let comments :=
    if (extendedData.isSome || durableIds.isSome) && comments0.length > 0 then
      enhanceCommentsWithExtendedData comments0 (extendedData.getD []) (durableIds.getD [])
    else comments0
  match pkg.document with
  | none =>
    { comments := [], footnotes := [], endnotes := [],
      error := some "Required document.xml not found in .docx file" }
  | some docXml =>
    { comments, footnotes, endnotes, error := none, extendedData, durableIds,
      transformedContent :=
        some (transformDocumentToHtml docXml footnotes endnotes pkg.numbering pkg.styles) }

/-! ## Lemmas about the threading pass -/

theorem updateAt_length {α : Type} (f : α → α) :
    ∀ (l : List α) (n : Nat), (updateAt n f l).length = l.length := by
  intro l
  induction l with
  | nil => intro n; cases n <;> rfl
  | cons a as ih =>
    intro n
    cases n with
    | zero => rfl
    | succ n' => simpa [updateAt] using ih n'

theorem updateAt_get (f : α → α) :
    ∀ (l : List α) (n m : Nat),
      (updateAt n f l).get? m = if m = n then (l.get? n).map f else l.get? m := by
  intro l
  induction l with
  | nil => intro n m; simp [updateAt]
  | cons a as ih =>
    intro n m
    cases n with
    | zero =>
      cases m with
      | zero => simp [updateAt]
      | succ m' => simp [updateAt]
    | succ n' =>
      cases m with
      | zero => simp [updateAt]
      | succ m' => simpa [updateAt, Nat.succ_inj] using ih n' m'

theorem threadStep_length (m : List (String × Nat)) (acc : List DocumentComment)
    (c : DocumentComment) : (threadStep m acc c).length = acc.length := by
  unfold threadStep appendChildAt
  split
  · split
    · exact updateAt_length _ acc _
    · rfl
  · rfl

theorem foldl_threadStep_length (m : List (String × Nat)) :
    ∀ (iter acc : List DocumentComment),
      (iter.foldl (threadStep m) acc).length = acc.length := by
  intro iter
  induction iter with
  | nil => intro acc; rfl
  | cons c rest ih =>
    intro acc
    simp only [List.foldl_cons]
    rw [ih, threadStep_length]

theorem threadStep_get_map {α : Type} (g : DocumentComment → α)
    (hg : ∀ b q, g { b with children := some ((b.children.getD []) ++ [q]) } = g b)
    (m : List (String × Nat)) (acc : List DocumentComment) (c : DocumentComment) (i : Nat) :
    ((threadStep m acc c).get? i).map g = (acc.get? i).map g := by
  unfold threadStep appendChildAt
  split
  · split
    · rename_i j _
      rw [updateAt_get]
      by_cases hij : i = j
      · subst hij
        rw [if_pos rfl, Option.map_map]
        cases hx : acc.get? i with
        | none => rfl
        | some b => simp [Function.comp, hg]
      · rw [if_neg hij]
    · rfl
  · rfl

theorem foldl_threadStep_get_map {α : Type} (g : DocumentComment → α)
    (hg : ∀ b q, g { b with children := some ((b.children.getD []) ++ [q]) } = g b)
    (m : List (String × Nat)) :
    ∀ (iter acc : List DocumentComment) (i : Nat),
      ((iter.foldl (threadStep m) acc).get? i).map g = (acc.get? i).map g := by
  intro iter
  induction iter with
  | nil => intro acc i; rfl
  | cons c rest ih =>
    intro acc i
    simp only [List.foldl_cons]
    rw [ih, threadStep_get_map g hg]

/-- The children accumulated at index `j` by the second threading pass. -/
def collectChildren (m : List (String × Nat)) (j : Nat) (iter : List DocumentComment) :
    List String :=
  iter.filterMap (fun c =>
    if jsTruthy c.parentId && jsTruthy c.paraId then
      match lookupLast m (c.parentId.getD "") with
      | some j' => if j' = j then some (c.paraId.getD "") else none
      | none => none
    else none)

theorem foldl_threadStep_children (m : List (String × Nat)) :
    ∀ (iter acc : List DocumentComment) (j : Nat) (b : DocumentComment) (c0 : List String),
      acc.get? j = some b → b.children = some c0 →
      (iter.foldl (threadStep m) acc).get? j =
        some { b with children := some (c0 ++ collectChildren m j iter) } := by
  intro iter
  induction iter with
  | nil =>
    intro acc j b c0 hb hc
    have hbeq : ({ b with children := some c0 } : DocumentComment) = b := by
      cases b
      simp_all
    show acc.get? j = some { b with children := some (c0 ++ collectChildren m j []) }
    have hcc : collectChildren m j [] = [] := rfl
    rw [hcc, List.append_nil, hbeq]
    exact hb
  | cons c rest ih =>
    intro acc j b c0 hb hc
    simp only [List.foldl_cons]
    have hstep : collectChildren m j (c :: rest) =
        (if jsTruthy c.parentId && jsTruthy c.paraId then
          match lookupLast m (c.parentId.getD "") with
          | some j' => if j' = j then some (c.paraId.getD "") else none
          | none => none
        else none).toList ++ collectChildren m j rest := by
      simp [collectChildren, List.filterMap_cons]
      split <;> simp_all
    by_cases hcond : (jsTruthy c.parentId && jsTruthy c.paraId) = true
    · cases hlook : lookupLast m (c.parentId.getD "") with
      | none =>
        have hstep2 : threadStep m acc c = acc := by
          unfold threadStep
          rw [if_pos hcond, hlook]
        rw [hstep2, ih acc j b c0 hb hc, hstep, hcond, hlook]
        simp
      | some j' =>
        by_cases hj : j' = j
        · subst hj
          have hstep2 : threadStep m acc c = appendChildAt acc j' (c.paraId.getD "") := by
            unfold threadStep
            rw [if_pos hcond, hlook]
          have hb' : (appendChildAt acc j' (c.paraId.getD "")).get? j' =
              some { b with children := some (c0 ++ [c.paraId.getD ""]) } := by
            unfold appendChildAt
            rw [updateAt_get, if_pos rfl, hb]
            simp [hc]
          have hres := ih (appendChildAt acc j' (c.paraId.getD "")) j' _ (c0 ++ [c.paraId.getD ""])
            hb' rfl
          rw [hstep2, hres, hstep, hcond, hlook]
          simp
        · have hstep2 : threadStep m acc c = appendChildAt acc j' (c.paraId.getD "") := by
            unfold threadStep
            rw [if_pos hcond, hlook]
          have hb2 : (appendChildAt acc j' (c.paraId.getD "")).get? j = some b := by
            unfold appendChildAt
            rw [updateAt_get, if_neg (fun h => hj h.symm)]
            exact hb
          rw [hstep2, ih _ j b c0 hb2 hc, hstep, hcond, hlook]
          simp [hj]
    · have hstep2 : threadStep m acc c = acc := by
        unfold threadStep
        rw [if_neg hcond]
      rw [hstep2, ih acc j b c0 hb hc, hstep]
      simp only [Bool.not_eq_true] at hcond
      rw [hcond]
      simp

theorem lookupLast_append_single {κ α : Type} [BEq κ] (l : List (κ × α)) (k k' : κ) (v : α) :
    lookupLast (l ++ [(k', v)]) k = if k' == k then some v else lookupLast l k := by
  unfold lookupLast
  rw [List.foldl_append]
  rfl

/-- The last index of a comment whose (truthy) `paraId` equals `k`, offset by
`base`: what the last-write-wins index map resolves `k` to. -/
def lastIdxFrom (k : String) : Nat → List DocumentComment → Option Nat
  | _, [] => none
  | base, c :: rest =>
    match lastIdxFrom k (base + 1) rest with
    | some i => some i
    | none => if jsTruthy c.paraId && c.paraId.getD "" == k then some base else none

theorem foldIdx_char (k : String) :
    ∀ (l : List DocumentComment) (base : Nat) (m0 : List (String × Nat)),
      lookupLast ((List.enumFrom base l).foldl stepIdx m0) k =
        match lastIdxFrom k base l with
        | some i => some i
        | none => lookupLast m0 k := by
  intro l
  induction l with
  | nil => intro base m0; simp [lastIdxFrom, List.enumFrom]
  | cons c rest ih =>
    intro base m0
    have henum : List.enumFrom base (c :: rest) = (base, c) :: List.enumFrom (base + 1) rest := rfl
    rw [henum]
    simp only [List.foldl_cons]
    rw [ih (base + 1) (stepIdx m0 (base, c))]
    cases hrest : lastIdxFrom k (base + 1) rest with
    | some i => simp [lastIdxFrom, hrest]
    | none =>
      have hlast : lastIdxFrom k base (c :: rest) =
          (if jsTruthy c.paraId && c.paraId.getD "" == k then some base else none) := by
        unfold lastIdxFrom
        rw [hrest]
      rw [hlast]
      unfold stepIdx
      by_cases ht : jsTruthy c.paraId = true
      · rw [if_pos ht, lookupLast_append_single]
        by_cases hk : (c.paraId.getD "" == k) = true
        · simp [ht, hk]
        · simp only [Bool.not_eq_true] at hk
          simp [ht, hk]
      · simp only [Bool.not_eq_true] at ht
        simp [ht]

theorem buildIdx_lookup (l : List DocumentComment) (k : String) :
    lookupLast (buildParaIdIndex l) k = lastIdxFrom k 0 l := by
  unfold buildParaIdIndex
  have : l.enum = List.enumFrom 0 l := rfl
  rw [this, foldIdx_char]
  cases lastIdxFrom k 0 l <;> simp [lookupLast]

theorem lastIdxFrom_none (p : String) :
    ∀ (l : List DocumentComment) (base : Nat),
      (∀ c ∈ l, ¬(jsTruthy c.paraId = true ∧ c.paraId.getD "" = p)) →
      lastIdxFrom p base l = none := by
  intro l
  induction l with
  | nil => intro base _; rfl
  | cons c rest ih =>
    intro base h
    unfold lastIdxFrom
    rw [ih (base + 1) (fun d hd => h d (by simp [hd]))]
    have hc := h c (by simp)
    by_cases ht : jsTruthy c.paraId = true
    · have : ¬(c.paraId.getD "" = p) := fun he => hc ⟨ht, he⟩
      simp [ht, this]
    · simp only [Bool.not_eq_true] at ht
      simp [ht]

theorem lastIdxFrom_of_last (p : String) :
    ∀ (l : List DocumentComment) (base i : Nat) (b : DocumentComment),
      l.get? i = some b → jsTruthy b.paraId = true → b.paraId.getD "" = p →
      (∀ j c, l.get? j = some c → i < j → ¬(jsTruthy c.paraId = true ∧ c.paraId.getD "" = p)) →
      lastIdxFrom p base l = some (base + i) := by
  intro l
  induction l with
  | nil => intro base i b hb; simp at hb
  | cons c rest ih =>
    intro base i b hb htr hp hlater
    cases i with
    | zero =>
      have hcb : c = b := by simpa using hb
      subst hcb
      unfold lastIdxFrom
      have hnone : lastIdxFrom p (base + 1) rest = none := by
        apply lastIdxFrom_none
        intro d hd
        obtain ⟨j, hj⟩ := List.get?_of_mem hd
        exact hlater (j + 1) d (by simpa using hj) (Nat.succ_pos j)
      rw [hnone]
      simp [htr, hp]
    | succ i' =>
      have hb' : rest.get? i' = some b := by simpa using hb
      have hres := ih (base + 1) i' b hb' htr hp
        (fun j d hj hij => hlater (j + 1) d (by simpa using hj) (by omega))
      unfold lastIdxFrom
      rw [hres]
      have : base + 1 + i' = base + (i' + 1) := by omega
      simp [this]

/-! ## Concrete fixtures used by the claim theorems -/

/-- A `w:t` text element. -/
def mkT (s : String) : XNode := .elem "w:t" [] [.text s]

/-- A `w:r` run element. -/
def mkRun (cs : List XNode) : XNode := .elem "w:r" [] cs

/-- A run holding plain text. -/
def mkTextRun (s : String) : XNode := mkRun [mkT s]

/-- A run holding a footnote reference and plain text. -/
def mkFnRefRun (i s : String) : XNode :=
  mkRun [.elem "w:footnoteReference" [("w:id", i)] [], mkT s]

/-- A `w:document` with the given body children. -/
def mkDoc (cs : List XNode) : XNode := .elem "w:document" [] [.elem "w:body" [] cs]

/-- styles.xml with one style `S` whose paragraph mark run properties carry a
bare `w:b` (bold on). -/
def c1StylesXml : XNode :=
  .elem "w:styles" []
    [.elem "w:style" [("w:styleId", "S")]
      [.elem "w:pPr" [] [.elem "w:rPr" [] [.elem "w:b" [] []]]]]

/-- Direct run properties carrying an explicit bold cancel
(`<w:b w:val="0"/>`). -/
def c1RunRPr : XNode := .elem "w:rPr" [] [.elem "w:b" [("w:val", "0")] []]

/-- One paragraph styled `S` whose run carries the bold-cancel toggle. -/
def c1Doc : XNode :=
  mkDoc [.elem "w:p" []
    [.elem "w:pPr" [] [.elem "w:pStyle" [("w:val", "S")] []],
     mkRun [c1RunRPr, mkT "x"]]]

/-- numbering.xml with one decimal level-0 definition (`%1.`) for list
instance 1. -/
def c5NumberingXml : XNode :=
  .elem "w:numbering" []
    [.elem "w:abstractNum" [("w:abstractNumId", "0")]
      [.elem "w:lvl" [("w:ilvl", "0")]
        [.elem "w:numFmt" [("w:val", "decimal")] [],
         .elem "w:lvlText" [("w:val", "%1.")] [],
         .elem "w:start" [("w:val", "1")] []]],
     .elem "w:num" [("w:numId", "1")]
      [.elem "w:abstractNumId" [("w:val", "0")] []]]

/-- A level-0 list paragraph of list instance 1. -/
def c5Para (s : String) : XNode :=
  .elem "w:p" []
    [.elem "w:pPr" [] [.elem "w:numPr" []
       [.elem "w:ilvl" [("w:val", "0")] [], .elem "w:numId" [("w:val", "1")] []]],
     mkTextRun s]

/-- Three consecutive level-0 list paragraphs. -/
def c5Doc : XNode := mkDoc [c5Para "a", c5Para "b", c5Para "c"]

/-- comments.xml with two well-formed comments (paraIds p1, p2). -/
def fixtureCommentsXml : XNode :=
  .elem "w:comments" []
    [.elem "w:comment" [("w:id", "0"), ("w:author", "A")]
       [.elem "w:p" [("w14:paraId", "p1")] [mkTextRun "first"]],
     .elem "w:comment" [("w:id", "1"), ("w:author", "B")]
       [.elem "w:p" [("w14:paraId", "p2")] [mkTextRun "second"]]]

/-- commentsExtended.xml marking p2 as a done reply to p1. -/
def fixtureCommentsExtendedXml : XNode :=
  .elem "w15:commentsEx" []
    [.elem "w15:commentEx"
      [("w15:paraId", "p2"), ("w15:paraIdParent", "p1"), ("w15:done", "1")] []]

/-- A package with parseable comment parts but no word/document.xml. -/
def c6Pkg : DocxPackage :=
  { document := none, comments := some fixtureCommentsXml,
    commentsExtended := some fixtureCommentsExtendedXml }

/-! ## Claim theorems -/

/-- C1: the spec requires that a run with style-inherited bold and a direct
`<w:b w:val="0"/>` cancel renders without bold, but `extractRunProperties`
sets `bold := true` on mere `w:b` presence without reading `w:val`, so the
merged properties keep bold and the emitted span carries
`font-weight: bold`.  This theorem evaluates the code at the failing
input. -/
theorem bold_cancel_ignored_eval :
    extractRunProperties (some c1RunRPr) = ({ bold := some true } : RunProperties) ∧
    (transformDocumentToHtml c1Doc [] [] none (some c1StylesXml)).html =
      "<p><span style=\"font-weight: bold\">x</span></p>" := by
  constructor
  · rfl
  · rfl

/-- C6: for every package lacking word/document.xml, the result has empty
comment/footnote/endnote arrays, a non-empty error string, and no
transformed content — regardless of which other parts are present. -/
theorem missing_document_fatal (pkg : DocxPackage) (documentId : String)
    (h : pkg.document = none) :
    (parseDocxComments pkg documentId).comments = [] ∧
    (parseDocxComments pkg documentId).footnotes = [] ∧
    (parseDocxComments pkg documentId).endnotes = [] ∧
    (∃ msg, (parseDocxComments pkg documentId).error = some msg ∧ msg ≠ "") ∧
    (parseDocxComments pkg documentId).transformedContent = none := by
  have hres : parseDocxComments pkg documentId =
      { comments := [], footnotes := [], endnotes := [],
        error := some "Required document.xml not found in .docx file" } := by
    unfold parseDocxComments
    rw [h]
  rw [hres]
  exact ⟨rfl, rfl, rfl, ⟨_, rfl, by decide⟩, rfl⟩

/-- Witness for C6: a concrete package with parseable comments.xml and
commentsExtended.xml but no document.xml; the comment part alone would have
yielded two comments. -/
theorem missing_document_fatal_witness :
    ((parseDocxComments c6Pkg "d").comments = [] ∧
     (parseDocxComments c6Pkg "d").footnotes = [] ∧
     (parseDocxComments c6Pkg "d").endnotes = [] ∧
     (∃ msg, (parseDocxComments c6Pkg "d").error = some msg ∧ msg ≠ "") ∧
     (parseDocxComments c6Pkg "d").transformedContent = none) ∧
    (parseCommentsXml fixtureCommentsXml "d").length = 2 :=
  ⟨missing_document_fatal c6Pkg "d" rfl, by rfl⟩

/-- C5: three level-0 increments of one list instance render the markers
`1.`, `2.`, `3.` in order (evaluated through the full transformer on the
parsed numbering catalog), and incrementing a counter at level `n` resets
every deeper counter to its configured start (0 in the modelled counter
module), so a level-1 increment followed by a level-0 increment leaves the
level-1 counter back at its start. -/
theorem numbering_sequence_and_reset :
    (transformDocumentToHtml c5Doc [] [] (some c5NumberingXml) none).html =
      "<p><span class=\"numbering-text\">1. </span>a</p>\n" ++
      "<p><span class=\"numbering-text\">2. </span>b</p>\n" ++
      "<p><span class=\"numbering-text\">3. </span>c</p>" ∧
    (∀ (c : NumberingCounter) (n m : Int), 0 ≤ n → n < m →
      counterValue (incrementCounter c n).2 m = 0) ∧
    (∀ (c : NumberingCounter),
      counterValue (incrementCounter (incrementCounter c 1).2 0).2 1 = 0) := by
  have hgetD : ∀ (f : Nat → Int) (len i : Nat),
      ((List.range len).map f).getD i 0 = if i < len then f i else 0 := by
    intro f len i
    by_cases h : i < len
    · rw [List.getD, List.get?_map, List.get?_range h, if_pos h]
      rfl
    · rw [List.getD, List.get?_eq_none.mpr (by simpa using Nat.le_of_not_lt h), if_neg h]
      rfl
  have hgen : ∀ (c : NumberingCounter) (n m : Int), 0 ≤ n → n < m →
      counterValue (incrementCounter c n).2 m = 0 := by
    intro c n m hn hm
    have hm0 : ¬(m < 0) := by omega
    have hlt : n.toNat < m.toNat := by omega
    have hcounters : (incrementCounter c n).2.counters =
        (List.range (max c.counters.length (n.toNat + 1))).map
          (fun i => if i < n.toNat then c.counters.getD i 0
                    else if i = n.toNat then counterValue c n + 1 else 0) := rfl
    unfold counterValue
    rw [if_neg hm0, hcounters, hgetD]
    split
    · rw [if_neg (by omega), if_neg (by omega)]
    · rfl
  exact ⟨by rfl, hgen, fun c => hgen (incrementCounter c 1).2 0 1 (by norm_num) (by norm_num)⟩

/-- Witness for C5: the reset statement applied at a concrete counter, with
its hypotheses discharged at the concrete levels 0 and 1. -/
theorem numbering_sequence_and_reset_witness :
    counterValue (incrementCounter ⟨[5, 7]⟩ 0).2 1 = 0 :=
  numbering_sequence_and_reset.2.1 ⟨[5, 7]⟩ 0 1 (by norm_num) (by norm_num)

/-- A two-style `basedOn` cycle carrying run formatting. -/
def cycStyles : List (String × StyleDefinition) :=
  [("A", { styleId := "A", basedOn := some "B",
           runProperties := some { italic := some true } }),
   ("B", { styleId := "B", basedOn := some "A",
           runProperties := some { bold := some true } })]

/-- A two-style `basedOn` cycle carrying paragraph formatting. -/
def cycPStyles : List (String × StyleDefinition) :=
  [("A", { styleId := "A", basedOn := some "B",
           paragraphProps := some { indentation := some { left := some 10 } } }),
   ("B", { styleId := "B", basedOn := some "A",
           paragraphProps := some { alignment := some "right" } })]

theorem runPropsFuel_stable :
    ∀ (f1 f2 : Nat) (styles : List (String × StyleDefinition)) (visited : List String)
      (styleId : String),
      unvisitedCount styles visited < f1 → unvisitedCount styles visited < f2 →
      getStyleRunPropsFuel f1 styles visited styleId =
        getStyleRunPropsFuel f2 styles visited styleId := by
  intro f1
  induction f1 with
  | zero => intro f2 styles visited styleId h1 _; exact absurd h1 (Nat.not_lt_zero _)
  | succ a ih =>
    intro f2 styles visited styleId h1 h2
    cases f2 with
    | zero => exact absurd h2 (Nat.not_lt_zero _)
    | succ b =>
      simp only [getStyleRunPropsFuel]
      by_cases hv : styleId ∈ visited
      · rw [if_pos hv, if_pos hv]
      · rw [if_neg hv, if_neg hv]
        cases hl : lookupLast styles styleId with
        | none => rfl
        | some style =>
          dsimp only
          cases hbo : style.basedOn with
          | none => rfl
          | some bId =>
            dsimp only
            have hmes := unvisited_lt styles visited styleId (lookupLast_mem hl) hv
            rw [ih b styles (styleId :: visited) bId (by omega) (by omega)]

theorem pPropsFuel_stable :
    ∀ (f1 f2 : Nat) (styles : List (String × StyleDefinition)) (visited : List String)
      (styleId : String),
      unvisitedCount styles visited < f1 → unvisitedCount styles visited < f2 →
      getStyleParagraphPropsFuel f1 styles visited styleId =
        getStyleParagraphPropsFuel f2 styles visited styleId := by
  intro f1
  induction f1 with
  | zero => intro f2 styles visited styleId h1 _; exact absurd h1 (Nat.not_lt_zero _)
  | succ a ih =>
    intro f2 styles visited styleId h1 h2
    cases f2 with
    | zero => exact absurd h2 (Nat.not_lt_zero _)
    | succ b =>
      simp only [getStyleParagraphPropsFuel]
      by_cases hv : styleId ∈ visited
      · rw [if_pos hv, if_pos hv]
      · rw [if_neg hv, if_neg hv]
        cases hl : lookupLast styles styleId with
        | none => rfl
        | some style =>
          dsimp only
          cases hbo : style.basedOn with
          | none => rfl
          | some bId =>
            dsimp only
            have hmes := unvisited_lt styles visited styleId (lookupLast_mem hl) hv
            rw [ih b styles (styleId :: visited) bId (by omega) (by omega)]

/-- C7: `basedOn` resolution terminates for every style map, cycles
included.  Any fuel exceeding the number of unvisited style ids computes the
fixed resolution result (so the recursion bottoms out within the visited-set
bound and more fuel never changes the answer); a revisited id resolves to
nothing, leaving the caller with what was merged so far; and on a concrete
two-style cycle both walkers return the merged properties of the two styles
instead of looping. -/
theorem style_cycle_resolution_terminates :
    (∀ (fuel : Nat) (styles : List (String × StyleDefinition)) (visited : List String)
       (styleId : String), unvisitedCount styles visited < fuel →
       getStyleRunPropsFuel fuel styles visited styleId =
         getStyleRunProperties styles visited styleId) ∧
    (∀ (fuel : Nat) (styles : List (String × StyleDefinition)) (visited : List String)
       (styleId : String), unvisitedCount styles visited < fuel →
       getStyleParagraphPropsFuel fuel styles visited styleId =
         getStyleParagraphProps styles visited styleId) ∧
    (∀ (styles : List (String × StyleDefinition)) (visited : List String) (styleId : String),
       styleId ∈ visited →
       getStyleRunProperties styles visited styleId = none ∧
       getStyleParagraphProps styles visited styleId = none) ∧
    getStyleRunProperties cycStyles [] "A" =
      some { bold := some true, italic := some true } ∧
    getStyleParagraphProps cycPStyles [] "A" =
      some { alignment := some "right",
             indentation := some { left := some 10 } } := by
  refine ⟨?_, ?_, ?_, by rfl, by rfl⟩
  · intro fuel styles visited styleId hf
    exact runPropsFuel_stable fuel (unvisitedCount styles visited + 1) styles visited styleId hf
      (Nat.lt_succ_self _)
  · intro fuel styles visited styleId hf
    exact pPropsFuel_stable fuel (unvisitedCount styles visited + 1) styles visited styleId hf
      (Nat.lt_succ_self _)
  · intro styles visited styleId hv
    constructor
    · show getStyleRunPropsFuel _ _ _ _ = none
      simp only [getStyleRunPropsFuel]
      rw [if_pos hv]
    · show getStyleParagraphPropsFuel _ _ _ _ = none
      simp only [getStyleParagraphPropsFuel]
      rw [if_pos hv]

/-- Witness for C7: the fuel-stability and revisit statements applied on the
concrete cyclic style map. -/
theorem style_cycle_resolution_terminates_witness :
    (getStyleRunPropsFuel 5 cycStyles [] "A" = getStyleRunProperties cycStyles [] "A") ∧
    (getStyleParagraphPropsFuel 5 cycPStyles [] "A" =
      getStyleParagraphProps cycPStyles [] "A") ∧
    (getStyleRunProperties cycStyles ["A"] "A" = none ∧
     getStyleParagraphProps cycPStyles ["A"] "A" = none) :=
  ⟨style_cycle_resolution_terminates.1 5 cycStyles [] "A" (by decide),
   style_cycle_resolution_terminates.2.1 5 cycPStyles [] "A" (by decide),
   ⟨(style_cycle_resolution_terminates.2.2.1 cycStyles ["A"] "A" (by decide)).1,
    (style_cycle_resolution_terminates.2.2.1 cycPStyles ["A"] "A" (by decide)).2⟩⟩

/-- The run-property layer implied by the effective numbering level, as this
code base defines it: the `LevelDefinition` records parsed from numbering.xml
carry only paragraph formatting (`lvlText`, `numFmt`, `start`, optional
alignment/indentation) and no run formatting, so the layer is empty for
every level. -/
def numberingLevelRunProperties (effectiveNumbering : Option NumberingRef)
    (defs : List (String × NumberingDefinition)) : RunProperties :=
  {}

/-- Apply one precedence layer of the spec's merge order: an absent layer
contributes nothing, a present layer overwrites exactly its own fields. -/
def applyRunPropertyLayer (acc : RunProperties) (layer : Option RunProperties) : RunProperties :=
  match layer with
  | some p => mergeRunProperties acc p
  | none => acc

/-- The merge of the spec's five layers in ascending precedence: (1) the
paragraph style's run properties, (2) run properties implied by the
effective numbering level, (3) run properties of the paragraph's own
property block, (4) run properties of the character style referenced on the
run, (5) run properties declared directly on the run. -/
def specFiveLayerRunProps (directRunProps : RunProperties)
    (paragraphProps : Option ParagraphProperties)
    (styles : List (String × StyleDefinition))
    (defs : List (String × NumberingDefinition)) : RunProperties :=
  let layer1 : Option RunProperties :=
    match paragraphProps with
    | some pp =>
      if jsTruthy pp.pStyle then getStyleRunProperties styles [] (pp.pStyle.getD "") else none
    | none => none
  let effNum : Option NumberingRef :=
    match paragraphProps with
    | some pp => getEffectiveNumbering pp styles
    | none => none
  let layer2 : Option RunProperties := some (numberingLevelRunProperties effNum defs)
  let layer3 : Option RunProperties := paragraphProps.bind (fun pp => pp.runProperties)
  let layer4 : Option RunProperties :=
    if jsTruthy directRunProps.rStyle then
      getStyleRunProperties styles [] (directRunProps.rStyle.getD "")
    else none
  let layer5 : Option RunProperties := some directRunProps
  applyRunPropertyLayer (applyRunPropertyLayer (applyRunPropertyLayer
    (applyRunPropertyLayer (applyRunPropertyLayer {} layer1) layer2) layer3) layer4) layer5

/-- C2: the effective run properties computed in `transformRun` equal the
five-layer merge of the spec's order (the numbering layer being the empty
bag this code derives from a numbering level); each merge step overwrites
exactly the fields present in the higher layer; and the effective numbering
used for layer 2 takes a direct numbering reference over a style-implied
one. -/
theorem effective_run_props_five_layers :
    (∀ (directRunProps : RunProperties) (paragraphProps : Option ParagraphProperties)
       (styles : List (String × StyleDefinition)) (defs : List (String × NumberingDefinition)),
       mergedRunPropsOf directRunProps paragraphProps styles =
         specFiveLayerRunProps directRunProps paragraphProps styles defs) ∧
    (∀ (base override : RunProperties),
       (mergeRunProperties base override).bold =
         (if override.bold.isSome then override.bold else base.bold) ∧
       (mergeRunProperties base override).italic =
         (if override.italic.isSome then override.italic else base.italic) ∧
       (mergeRunProperties base override).underline =
         (if override.underline.isSome then override.underline else base.underline) ∧
       (mergeRunProperties base override).fontSize =
         (if override.fontSize.isSome then override.fontSize else base.fontSize) ∧
       (mergeRunProperties base override).color =
         (if override.color.isSome then override.color else base.color) ∧
       (mergeRunProperties base override).fontFamily =
         (if override.fontFamily.isSome then override.fontFamily else base.fontFamily) ∧
       (mergeRunProperties base override).highlight =
         (if override.highlight.isSome then override.highlight else base.highlight) ∧
       (mergeRunProperties base override).strikethrough =
         (if override.strikethrough.isSome then override.strikethrough else base.strikethrough) ∧
       (mergeRunProperties base override).doubleStrikethrough =
         (if override.doubleStrikethrough.isSome then override.doubleStrikethrough
          else base.doubleStrikethrough) ∧
       (mergeRunProperties base override).allCaps =
         (if override.allCaps.isSome then override.allCaps else base.allCaps) ∧
       (mergeRunProperties base override).smallCaps =
         (if override.smallCaps.isSome then override.smallCaps else base.smallCaps) ∧
       (mergeRunProperties base override).verticalAlign =
         (if override.verticalAlign.isSome then override.verticalAlign else base.verticalAlign) ∧
       (mergeRunProperties base override).rStyle =
         (if override.rStyle.isSome then override.rStyle else base.rStyle) ∧
       (mergeRunProperties base override).revision =
         (if override.revision.isSome then override.revision else base.revision)) ∧
    (∀ (pp : ParagraphProperties) (styles : List (String × StyleDefinition)),
       jsTruthy (pp.numbering.bind (fun n => n.numId)) = true →
       getEffectiveNumbering pp styles = pp.numbering) := by
  have hovr : ∀ {α : Type} (o b : Option α), ovr o b = if o.isSome then o else b := by
    intro α o b
    cases o <;> rfl
  have hme : ∀ q : RunProperties, mergeRunProperties q {} = q := fun _ => rfl
  refine ⟨?_, ?_, ?_⟩
  · intro d pp styles defs
    cases pp with
    | none =>
      by_cases h4 : jsTruthy d.rStyle = true <;>
        cases hg2 : getStyleRunProperties styles [] (d.rStyle.getD "") <;>
          simp [mergedRunPropsOf, specFiveLayerRunProps, applyRunPropertyLayer,
            numberingLevelRunProperties, h4, hg2, hme]
    | some p =>
      by_cases h1 : jsTruthy p.pStyle = true <;>
        by_cases h4 : jsTruthy d.rStyle = true <;>
          cases hg1 : getStyleRunProperties styles [] (p.pStyle.getD "") <;>
            cases hrp : p.runProperties <;>
              cases hg2 : getStyleRunProperties styles [] (d.rStyle.getD "") <;>
                simp [mergedRunPropsOf, specFiveLayerRunProps, applyRunPropertyLayer,
                  numberingLevelRunProperties, h1, h4, hg1, hrp, hg2, hme]
  · intro base override
    refine ⟨?_, ?_, ?_, ?_, ?_, ?_, ?_, ?_, ?_, ?_, ?_, ?_, ?_, ?_⟩ <;>
      simp [mergeRunProperties, hovr]
  · intro pp styles h
    unfold getEffectiveNumbering
    rw [if_pos h]

/-- Witness for C2: the direct-numbering-priority statement applied at a
paragraph carrying both a direct reference and a style reference. -/
theorem effective_run_props_five_layers_witness :
    getEffectiveNumbering
      { numbering := some { numId := some "7", ilvl := some 0 }, pStyle := some "S" }
      cycStyles =
      some { numId := some "7", ilvl := some 0 } :=
  effective_run_props_five_layers.2.2
    { numbering := some { numId := some "7", ilvl := some 0 }, pStyle := some "S" }
    cycStyles (by decide)

/-- Two comments sharing the paraId `p`, then a reply whose parent is `p`. -/
def dupComments : List DocumentComment :=
  [{ id := "d-0", paraId := some "p", author := "A", initial := "", plainText := "x",
     content := "<p>x</p>", documentId := "d", reference := "Comment 0" },
   { id := "d-1", paraId := some "p", author := "B", initial := "", plainText := "y",
     content := "<p>y</p>", documentId := "d", reference := "Comment 1" },
   { id := "d-2", paraId := some "q", author := "C", initial := "", plainText := "z",
     content := "<p>z</p>", documentId := "d", reference := "Comment 2" }]

/-- Extended data making the third comment a reply to paraId `p`. -/
def dupExt : List (String × ExtendedCommentData) :=
  [("q", { parentId := some "p" })]

/-- Counterexample to C3 as stated: with two comments sharing paraId `p`,
the reply whose `parentId` is `p` is appended only to the children of the
last one (the index map is last-write-wins), so the first comment B with
`B.paraId = p = A.parentId` ends the threading pass with empty `children`,
not containing A's paraId `q`. -/
theorem comment_threading_counterexample :
    ((enhanceCommentsWithExtendedData dupComments dupExt []).get? 2).map
      (fun c => (c.paraId, c.parentId)) = some (some "q", some "p") ∧
    ((enhanceCommentsWithExtendedData dupComments dupExt []).get? 0).map
      (fun c => (c.paraId, c.children)) = some (some "p", some []) ∧
    ((enhanceCommentsWithExtendedData dupComments dupExt []).get? 1).map
      (fun c => (c.paraId, c.children)) = some (some "p", some ["q"]) := by
  refine ⟨rfl, rfl, rfl⟩

/-- C3 (amended): if A's `parentId` equals B's `paraId` and B is the last
parsed comment carrying that `paraId` (in particular whenever paraIds are
unique), the threading pass appends A's `paraId` to B's `children`; and a
comment whose `parentId` resolves to no known `paraId` is left in place,
unlinked, with the pass completing normally (the output keeps the length and
per-comment identity of its input). -/
theorem comment_threading_links_children :
    (∀ (cs : List DocumentComment) (ext : List (String × ExtendedCommentData))
       (dur : List (String × String)) (iA iB : Nat) (a b : DocumentComment) (p q : String),
       (enhancePhase1 cs ext dur).get? iA = some a →
       a.parentId = some p → p ≠ "" →
       a.paraId = some q → q ≠ "" →
       (enhancePhase1 cs ext dur).get? iB = some b →
       b.paraId = some p →
       (∀ j c, (enhancePhase1 cs ext dur).get? j = some c → iB < j →
          ¬(jsTruthy c.paraId = true ∧ c.paraId.getD "" = p)) →
       ∃ b', (enhanceCommentsWithExtendedData cs ext dur).get? iB = some b' ∧
         q ∈ b'.children.getD []) ∧
    (∀ (cs : List DocumentComment) (ext : List (String × ExtendedCommentData))
       (dur : List (String × String)) (iA : Nat) (a : DocumentComment) (p : String),
       (enhancePhase1 cs ext dur).get? iA = some a →
       a.parentId = some p →
       (∀ c ∈ enhancePhase1 cs ext dur, ¬(jsTruthy c.paraId = true ∧ c.paraId.getD "" = p)) →
       (enhanceCommentsWithExtendedData cs ext dur).length = cs.length ∧
       ∃ a', (enhanceCommentsWithExtendedData cs ext dur).get? iA = some a' ∧
         a'.id = a.id ∧ a'.parentId = some p) := by
  constructor
  · intro cs ext dur iA iB a b p q ha hap hpne haq hqne hb hbp hlast
    have hE : enhanceCommentsWithExtendedData cs ext dur =
        (enhancePhase1 cs ext dur).foldl
          (threadStep (buildParaIdIndex (enhancePhase1 cs ext dur)))
          (enhancePhase1 cs ext dur) := rfl
    have hptr : jsTruthy b.paraId = true := by
      rw [hbp]
      simpa [jsTruthy] using hpne
    have hlook : lookupLast (buildParaIdIndex (enhancePhase1 cs ext dur)) p = some iB := by
      rw [buildIdx_lookup]
      have := lastIdxFrom_of_last p (enhancePhase1 cs ext dur) 0 iB b hb hptr
        (by rw [hbp]; rfl) hlast
      simpa using this
    have hchild : b.children = some [] := by
      have hb2 := hb
      unfold enhancePhase1 at hb2
      rw [List.get?_map] at hb2
      obtain ⟨c, _, hfc⟩ := Option.map_eq_some'.mp hb2
      rw [← hfc]
    have hfold := foldl_threadStep_children (buildParaIdIndex (enhancePhase1 cs ext dur))
      (enhancePhase1 cs ext dur) (enhancePhase1 cs ext dur) iB b [] hb hchild
    refine ⟨_, by rw [hE]; exact hfold, ?_⟩
    show q ∈ (some ((([] : List String)) ++
      collectChildren (buildParaIdIndex (enhancePhase1 cs ext dur)) iB
        (enhancePhase1 cs ext dur))).getD []
    simp only [Option.getD_some, List.nil_append]
    unfold collectChildren
    refine List.mem_filterMap.mpr ⟨a, List.get?_mem ha, ?_⟩
    have h1 : jsTruthy a.parentId = true := by
      rw [hap]
      simpa [jsTruthy] using hpne
    have h2 : jsTruthy a.paraId = true := by
      rw [haq]
      simpa [jsTruthy] using hqne
    have hgd : a.parentId.getD "" = p := by rw [hap]; rfl
    rw [h1, h2, hgd, hlook]
    simp [haq]
  · intro cs ext dur iA a p ha hap horph
    have hE : enhanceCommentsWithExtendedData cs ext dur =
        (enhancePhase1 cs ext dur).foldl
          (threadStep (buildParaIdIndex (enhancePhase1 cs ext dur)))
          (enhancePhase1 cs ext dur) := rfl
    constructor
    · rw [hE, foldl_threadStep_length]
      unfold enhancePhase1
      exact List.length_map _ _
    · have hg := foldl_threadStep_get_map (fun c => (c.id, c.parentId))
        (by intro b q; rfl)
        (buildParaIdIndex (enhancePhase1 cs ext dur)) (enhancePhase1 cs ext dur)
        (enhancePhase1 cs ext dur) iA
      rw [ha] at hg
      rw [← hE] at hg
      cases hfa : (enhanceCommentsWithExtendedData cs ext dur).get? iA with
      | none => rw [hfa] at hg; exact absurd hg (by simp)
      | some a' =>
        rw [hfa] at hg
        simp only [Option.map_some'] at hg
        have hpair := Option.some.inj hg
        exact ⟨a', rfl, congrArg Prod.fst hpair, by
          have := congrArg Prod.snd hpair
          simpa [hap] using this⟩

/-- A three-comment thread input: p2 replies to p1, p3's parent is unknown. -/
def thrComments : List DocumentComment :=
  [{ id := "d-0", paraId := some "p1", author := "A", initial := "", plainText := "x",
     content := "<p>x</p>", documentId := "d", reference := "Comment 0" },
   { id := "d-1", paraId := some "p2", author := "B", initial := "", plainText := "y",
     content := "<p>y</p>", documentId := "d", reference := "Comment 1" },
   { id := "d-2", paraId := some "p3", author := "C", initial := "", plainText := "z",
     content := "<p>z</p>", documentId := "d", reference := "Comment 2" }]

/-- Extended data for `thrComments`. -/
def thrExt : List (String × ExtendedCommentData) :=
  [("p2", { parentId := some "p1" }), ("p3", { parentId := some "zz" })]

/-- The phase-1 enhanced form of the first thread comment. -/
def thrW1e : DocumentComment :=
  { id := "d-0", paraId := some "p1", author := "A", initial := "", plainText := "x",
    content := "<p>x</p>", documentId := "d", reference := "Comment 0",
    done := some false, parentId := none, durableId := none, children := some [] }

/-- The phase-1 enhanced form of the second thread comment. -/
def thrW2e : DocumentComment :=
  { id := "d-1", paraId := some "p2", author := "B", initial := "", plainText := "y",
    content := "<p>y</p>", documentId := "d", reference := "Comment 1",
    done := some false, parentId := some "p1", durableId := none, children := some [] }

/-- The phase-1 enhanced form of the third thread comment. -/
def thrW3e : DocumentComment :=
  { id := "d-2", paraId := some "p3", author := "C", initial := "", plainText := "z",
    content := "<p>z</p>", documentId := "d", reference := "Comment 2",
    done := some false, parentId := some "zz", durableId := none, children := some [] }

/-- Witness for C3: the linking statement applied at the concrete thread
(p1 gains child p2), and the orphan statement applied at the comment whose
parent `zz` is unknown. -/
theorem comment_threading_links_children_witness :
    (∃ b', (enhanceCommentsWithExtendedData thrComments thrExt []).get? 0 = some b' ∧
       "p2" ∈ b'.children.getD []) ∧
    ((enhanceCommentsWithExtendedData thrComments thrExt []).length = thrComments.length ∧
     ∃ a', (enhanceCommentsWithExtendedData thrComments thrExt []).get? 2 = some a' ∧
       a'.id = thrW3e.id ∧ a'.parentId = some "zz") :=
  ⟨comment_threading_links_children.1 thrComments thrExt [] 1 0 thrW2e thrW1e "p1" "p2"
     rfl rfl (by decide) rfl (by decide) rfl rfl
     (by
       intro j c hj hgt
       rw [show enhancePhase1 thrComments thrExt [] = [thrW1e, thrW2e, thrW3e] from rfl] at hj
       rcases j with _ | _ | _ | j3
       · exact absurd hgt (lt_irrefl 0)
       · have hc : thrW2e = c := by simpa using hj
         subst hc
         decide
       · have hc : thrW3e = c := by simpa using hj
         subst hc
         decide
       · simp at hj),
   comment_threading_links_children.2 thrComments thrExt [] 2 thrW3e "zz" rfl rfl
     (by
       intro c hc
       rw [show enhancePhase1 thrComments thrExt [] = [thrW1e, thrW2e, thrW3e] from rfl] at hc
       simp only [List.mem_cons, List.not_mem_nil, or_false] at hc
       rcases hc with h | h | h <;> subst h <;> decide)⟩

/-- The claim's notion of a well-formed, non-empty comment record: some
paragraph of the `<comment>` element has non-empty trimmed run text. -/
def commentHasText (commentEl : XNode) : Bool :=
  (qsa commentEl ["w:p", "p"]).any (fun pEl => !(jsTrim (commentParaRunText pEl) == ""))

theorem string_eq_empty_of_data (a : String) (h : a.data = []) : a = "" := by
  cases a with
  | mk d =>
    have hd : d = [] := h
    rw [hd]

theorem beq_empty_of_data_cons (x : String) (c : Char) (l : List Char)
    (h : x.data = c :: l) : (x == "") = false := by
  have hne : x ≠ "" := by
    intro he
    rw [he] at h
    exact absurd h (by simp)
  simpa using hne

theorem joined_wrap_beq_empty (parts : List String) :
    (jsJoinSep "" (parts.map (fun s => "<p>" ++ s ++ "</p>")) == "") = parts.isEmpty := by
  match parts with
  | [] => rfl
  | [s] => exact beq_empty_of_data_cons _ '<' _ rfl
  | s :: s2 :: rest => exact beq_empty_of_data_cons _ '<' _ rfl

theorem sepJoined_nonempty (sep : String) (parts : List String)
    (h : ∀ s ∈ parts, (s == "") = false) (hne : parts ≠ []) :
    (jsJoinSep sep parts == "") = false := by
  match parts with
  | [s] => exact h s (by simp)
  | s :: s2 :: rest =>
    have hs := h s (by simp)
    have hd : s.data ≠ [] := by
      intro hh
      rw [string_eq_empty_of_data s hh] at hs
      exact absurd hs (by simp)
    cases hds : s.data with
    | nil => exact absurd hds hd
    | cons c l =>
      apply beq_empty_of_data_cons _ c (l ++ sep.data ++ (jsJoinSep sep (s2 :: rest)).data)
      show ((s ++ sep) ++ jsJoinSep sep (s2 :: rest)).data = _
      have h1 : ((s ++ sep) ++ jsJoinSep sep (s2 :: rest)).data =
          (s.data ++ sep.data) ++ (jsJoinSep sep (s2 :: rest)).data := rfl
      rw [h1, hds]
      simp [List.append_assoc]

theorem comment_push_cond (el : XNode) :
    (!(jsJoinSep ""
        ((((qsa el ["w:p", "p"]).map (fun pEl => jsTrim (commentParaRunText pEl))).filter
            (fun s => !(s == ""))).map (fun s => "<p>" ++ s ++ "</p>")) == "") &&
     !(jsJoinSep " "
        (((qsa el ["w:p", "p"]).map (fun pEl => jsTrim (commentParaRunText pEl))).filter
          (fun s => !(s == ""))) == "")) = commentHasText el := by
  by_cases hp : (((qsa el ["w:p", "p"]).map (fun pEl => jsTrim (commentParaRunText pEl))).filter
      (fun s => !(s == ""))) = []
  · rw [hp]
    have hall := List.filter_eq_nil.mp hp
    have hch : commentHasText el = false := by
      unfold commentHasText
      rw [List.any_eq_false]
      intro pEl hpEl
      exact hall _ (List.mem_map_of_mem _ hpEl)
    rw [hch]
    rfl
  · obtain ⟨x, xs, hxx⟩ := List.exists_cons_of_ne_nil hp
    have h1 : (jsJoinSep ""
        ((((qsa el ["w:p", "p"]).map (fun pEl => jsTrim (commentParaRunText pEl))).filter
          (fun s => !(s == ""))).map (fun s => "<p>" ++ s ++ "</p>")) == "") = false := by
      rw [joined_wrap_beq_empty, hxx]
      rfl
    have h2 : (jsJoinSep " "
        (((qsa el ["w:p", "p"]).map (fun pEl => jsTrim (commentParaRunText pEl))).filter
          (fun s => !(s == ""))) == "") = false := by
      apply sepJoined_nonempty
      · intro s hs
        have := (List.mem_filter.mp hs).2
        simpa using this
      · exact hp
    have hch : commentHasText el = true := by
      unfold commentHasText
      rw [List.any_eq_true]
      have hx : x ∈ (((qsa el ["w:p", "p"]).map
          (fun pEl => jsTrim (commentParaRunText pEl))).filter (fun s => !(s == ""))) := by
        rw [hxx]
        exact List.mem_cons_self x xs
      obtain ⟨hmem, hpx⟩ := List.mem_filter.mp hx
      obtain ⟨a, ha, hga⟩ := List.mem_map.mp hmem
      exact ⟨a, ha, by rw [hga]; exact hpx⟩
    rw [h1, h2, hch]
    rfl

theorem length_filterMap_enumFrom {α β : Type} (f : Nat × α → Option β) (cond : α → Bool)
    (hf : ∀ i a, (f (i, a)).isSome = cond a) :
    ∀ (l : List α) (base : Nat),
      ((List.enumFrom base l).filterMap f).length = l.countP cond := by
  intro l
  induction l with
  | nil => intro base; rfl
  | cons x t ih =>
    intro base
    rw [show List.enumFrom base (x :: t) = (base, x) :: List.enumFrom (base + 1) t from rfl,
      List.filterMap_cons, List.countP_cons]
    cases hfx : f (base, x) with
    | none =>
      have hc : cond x = false := by rw [← hf base x, hfx]; rfl
      rw [hc]
      simpa using ih (base + 1)
    | some b =>
      have hc : cond x = true := by rw [← hf base x, hfx]; rfl
      rw [hc]
      simpa using ih (base + 1)

theorem parseOneComment_isSome (documentId : String) (i : Nat) (el : XNode) :
    (parseOneComment documentId (i, el)).isSome = commentHasText el := by
  unfold parseOneComment
  dsimp only
  split
  next h =>
    simp only [Option.isSome_some]
    rw [← comment_push_cond el]
    exact h.symm
  next h =>
    simp only [Option.isSome_none]
    simp only [Bool.not_eq_true] at h
    rw [← comment_push_cond el]
    exact h.symm

theorem parseCommentsXml_length (xmlDoc : XNode) (documentId : String) :
    (parseCommentsXml xmlDoc documentId).length =
      (qsa xmlDoc ["w:comment", "comment"]).countP commentHasText := by
  unfold parseCommentsXml
  have h := length_filterMap_enumFrom (parseOneComment documentId) commentHasText
    (fun i a => parseOneComment_isSome documentId i a) (qsa xmlDoc ["w:comment", "comment"]) 0
  rw [show (qsa xmlDoc ["w:comment", "comment"]).enum =
    List.enumFrom 0 (qsa xmlDoc ["w:comment", "comment"]) from rfl]
  exact h

theorem enhance_length_order (cs : List DocumentComment)
    (ext : List (String × ExtendedCommentData)) (dur : List (String × String)) :
    (enhanceCommentsWithExtendedData cs ext dur).length = cs.length ∧
    ∀ i, ((enhanceCommentsWithExtendedData cs ext dur).get? i).map (fun c => c.id) =
      (cs.get? i).map (fun c => c.id) := by
  have hE : enhanceCommentsWithExtendedData cs ext dur =
      (enhancePhase1 cs ext dur).foldl
        (threadStep (buildParaIdIndex (enhancePhase1 cs ext dur)))
        (enhancePhase1 cs ext dur) := rfl
  constructor
  · rw [hE, foldl_threadStep_length]
    unfold enhancePhase1
    exact List.length_map _ _
  · intro i
    rw [hE, foldl_threadStep_get_map (fun c => c.id) (fun _ _ => rfl)]
    unfold enhancePhase1
    rw [List.get?_map]
    cases cs.get? i <;> rfl

/-- C4: the number of parsed comments equals the number of well-formed
comment records with non-empty text; the enhancement pass preserves count
and per-index identity; and at the package level the count depends only on
comments.xml (and the presence of document.xml), not on the extended
parts. -/
theorem comments_length_equals_wellformed_count :
    (∀ (xmlDoc : XNode) (documentId : String),
       (parseCommentsXml xmlDoc documentId).length =
         (qsa xmlDoc ["w:comment", "comment"]).countP commentHasText) ∧
    (∀ (cs : List DocumentComment) (ext : List (String × ExtendedCommentData))
       (dur : List (String × String)),
       (enhanceCommentsWithExtendedData cs ext dur).length = cs.length ∧
       ∀ i, ((enhanceCommentsWithExtendedData cs ext dur).get? i).map (fun c => c.id) =
         (cs.get? i).map (fun c => c.id)) ∧
    (∀ (pkg : DocxPackage) (documentId : String),
       (parseDocxComments pkg documentId).comments.length =
         if pkg.document.isSome then
           (match pkg.comments with
            | some d => (qsa d ["w:comment", "comment"]).countP commentHasText
            | none => 0)
         else 0) := by
  refine ⟨parseCommentsXml_length, enhance_length_order, ?_⟩
  intro pkg documentId
  unfold parseDocxComments
  cases hdoc : pkg.document with
  | none => simp
  | some docXml =>
    simp only [Option.isSome_some, if_true]
    split
    · rw [(enhance_length_order _ _ _).1]
      cases hcom : pkg.comments with
      | none => rfl
      | some d => exact parseCommentsXml_length d documentId
    · cases hcom : pkg.comments with
      | none => rfl
      | some d => exact parseCommentsXml_length d documentId

theorem parseOneComment_fields (documentId : String) (p : Nat × XNode) (c : DocumentComment)
    (h : parseOneComment documentId p = some c) :
    c.done = none ∧ c.parentId = none ∧ c.durableId = none ∧ c.children = none := by
  unfold parseOneComment at h
  dsimp only at h
  split at h
  · have hc := Option.some.inj h
    rw [← hc]
    exact ⟨rfl, rfl, rfl, rfl⟩
  · exact absurd h (by simp)

theorem parseCommentsXml_base_fields (xmlDoc : XNode) (documentId : String) :
    ∀ c ∈ parseCommentsXml xmlDoc documentId,
      c.done = none ∧ c.parentId = none ∧ c.durableId = none ∧ c.children = none := by
  intro c hc
  unfold parseCommentsXml at hc
  obtain ⟨p, _, hp⟩ := List.mem_filterMap.mp hc
  exact parseOneComment_fields documentId p c hp

theorem mem_updateAt {α : Type} (f : α → α) :
    ∀ (l : List α) (n : Nat) (c : α), c ∈ updateAt n f l → c ∈ l ∨ ∃ b ∈ l, c = f b := by
  intro l
  induction l with
  | nil =>
    intro n c hc
    rw [show updateAt n f [] = [] by cases n <;> rfl] at hc
    exact absurd hc (List.not_mem_nil c)
  | cons a as ih =>
    intro n c hc
    cases n with
    | zero =>
      rcases List.mem_cons.mp hc with h | h
      · exact Or.inr ⟨a, by simp, h⟩
      · exact Or.inl (by simp [h])
    | succ n' =>
      rcases List.mem_cons.mp hc with h | h
      · exact Or.inl (by simp [h])
      · rcases ih n' c h with h2 | ⟨b, hb, hcb⟩
        · exact Or.inl (by simp [h2])
        · exact Or.inr ⟨b, by simp [hb], hcb⟩

theorem foldl_threadStep_preserves {P : DocumentComment → Prop}
    (hP : ∀ b q, P b → P { b with children := some ((b.children.getD []) ++ [q]) })
    (m : List (String × Nat)) :
    ∀ (iter acc : List DocumentComment), (∀ c ∈ acc, P c) →
      ∀ c ∈ iter.foldl (threadStep m) acc, P c := by
  intro iter
  induction iter with
  | nil => intro acc h; exact h
  | cons x t ih =>
    intro acc h
    simp only [List.foldl_cons]
    apply ih
    intro c hc
    unfold threadStep at hc
    split at hc
    · split at hc
      · rename_i j _
        unfold appendChildAt at hc
        rcases mem_updateAt _ acc j c hc with h2 | ⟨b, hb, hcb⟩
        · exact h c h2
        · rw [hcb]
          exact hP b _ (h b hb)
      · exact h c hc
    · exact h c hc

theorem enhance_members_enriched (cs : List DocumentComment)
    (ext : List (String × ExtendedCommentData)) (dur : List (String × String)) :
    ∀ c ∈ enhanceCommentsWithExtendedData cs ext dur, c.done.isSome ∧ c.children.isSome := by
  have hE : enhanceCommentsWithExtendedData cs ext dur =
      (enhancePhase1 cs ext dur).foldl
        (threadStep (buildParaIdIndex (enhancePhase1 cs ext dur)))
        (enhancePhase1 cs ext dur) := rfl
  have hbase : ∀ c ∈ enhancePhase1 cs ext dur,
      c.done.isSome = true ∧ c.children.isSome = true := by
    intro c hc
    unfold enhancePhase1 at hc
    obtain ⟨a, _, ha⟩ := List.mem_map.mp hc
    rw [← ha]
    exact ⟨rfl, rfl⟩
  have hP : ∀ (b : DocumentComment) (q : String),
      (b.done.isSome = true ∧ b.children.isSome = true) →
      (({ b with children := some ((b.children.getD []) ++ [q]) } :
          DocumentComment).done.isSome = true ∧
       ({ b with children := some ((b.children.getD []) ++ [q]) } :
          DocumentComment).children.isSome = true) :=
    fun _ _ h => ⟨h.1, rfl⟩
  rw [hE]
  exact foldl_threadStep_preserves hP _ _ _ hbase

/-- C9: the enhancement pass runs exactly when an extended part produced
data and at least one comment parsed.  Without commentsExtended.xml and
commentsIds.xml every returned comment carries none of the `done`,
`parentId`, `durableId`, `children` fields; when the pass runs, every
returned comment has a `done` flag (defaulting to `false` when its paraId
has no extended entry) and a `children` list. -/
theorem enhancement_only_with_extended_parts :
    (∀ (pkg : DocxPackage) (documentId : String),
       pkg.commentsExtended = none → pkg.commentsIds = none →
       ∀ c ∈ (parseDocxComments pkg documentId).comments,
         c.done = none ∧ c.parentId = none ∧ c.durableId = none ∧ c.children = none) ∧
    (∀ (pkg : DocxPackage) (documentId : String),
       (pkg.commentsExtended.isSome ∨ pkg.commentsIds.isSome) →
       ∀ c ∈ (parseDocxComments pkg documentId).comments,
         c.done.isSome ∧ c.children.isSome) ∧
    (∀ (cs : List DocumentComment) (ext : List (String × ExtendedCommentData))
       (dur : List (String × String)) (i : Nat),
       ((enhanceCommentsWithExtendedData cs ext dur).get? i).map (fun c => c.done) =
         (cs.get? i).map (fun c =>
           some (((if jsTruthy c.paraId then lookupLast ext (c.paraId.getD "")
                   else none).bind (fun e => e.done)).getD false))) := by
  refine ⟨?_, ?_, ?_⟩
  · intro pkg documentId hext hids c hc
    unfold parseDocxComments at hc
    rw [hext, hids] at hc
    cases hdoc : pkg.document with
    | none =>
      rw [hdoc] at hc
      simp at hc
    | some docXml =>
      rw [hdoc] at hc
      simp only [Option.map_none', Option.isSome_none, Bool.or_self, Bool.false_and] at hc
      rw [if_neg (by simp)] at hc
      cases hcom : pkg.comments with
      | none =>
        rw [hcom] at hc
        exact absurd hc (List.not_mem_nil c)
      | some d =>
        rw [hcom] at hc
        exact parseCommentsXml_base_fields d documentId c hc
  · intro pkg documentId hsome c hc
    unfold parseDocxComments at hc
    cases hdoc : pkg.document with
    | none =>
      rw [hdoc] at hc
      simp at hc
    | some docXml =>
      rw [hdoc] at hc
      cases hcom : pkg.comments with
      | none =>
        rw [hcom] at hc
        dsimp only at hc
        split at hc
        · rw [show ∀ e d, enhanceCommentsWithExtendedData [] e d = [] from fun _ _ => rfl] at hc
          exact absurd hc (List.not_mem_nil c)
        · exact absurd hc (List.not_mem_nil c)
      | some d =>
        rw [hcom] at hc
        dsimp only at hc
        split at hc
        · exact enhance_members_enriched _ _ _ c hc
        · rename_i hcond
          exfalso
          have hOr : ((pkg.commentsExtended.map parseCommentsExtendedXml).isSome ||
              (pkg.commentsIds.map parseCommentsIdsXml).isSome) = true := by
            rcases hsome with h | h
            · obtain ⟨v, hv⟩ := Option.isSome_iff_exists.mp h
              simp [hv]
            · obtain ⟨v, hv⟩ := Option.isSome_iff_exists.mp h
              simp [hv]
          have hpos : 0 < (parseCommentsXml d documentId).length :=
            List.length_pos.mpr (List.ne_nil_of_mem hc)
          apply hcond
          rw [hOr]
          simpa using hpos
  · intro cs ext dur i
    have hE : enhanceCommentsWithExtendedData cs ext dur =
        (enhancePhase1 cs ext dur).foldl
          (threadStep (buildParaIdIndex (enhancePhase1 cs ext dur)))
          (enhancePhase1 cs ext dur) := rfl
    rw [hE, foldl_threadStep_get_map (fun c => c.done) (fun _ _ => rfl)]
    unfold enhancePhase1
    rw [List.get?_map]
    cases cs.get? i <;> rfl

/-- A one-paragraph document part for the C9 packages. -/
def helloDocX : XNode := mkDoc [.elem "w:p" [] [mkTextRun "Hello"]]

/-- A package with comments but neither extended part. -/
def c9PkgNoExt : DocxPackage :=
  { document := some helloDocX, comments := some fixtureCommentsXml }

/-- The same package with commentsExtended.xml present. -/
def c9PkgExt : DocxPackage :=
  { document := some helloDocX, comments := some fixtureCommentsXml,
    commentsExtended := some fixtureCommentsExtendedXml }

/-- The first comment as parsed without enhancement. -/
def c9c0 : DocumentComment :=
  { id := "d-0", paraId := some "p1", author := "A", initial := "", date := none,
    plainText := "first", content := "<p>first</p>", documentId := "d",
    reference := "Comment 0" }

/-- The second comment as parsed without enhancement. -/
def c9c1 : DocumentComment :=
  { id := "d-1", paraId := some "p2", author := "B", initial := "", date := none,
    plainText := "second", content := "<p>second</p>", documentId := "d",
    reference := "Comment 1" }

/-- The first comment after the enhancement pass. -/
def c9e0 : DocumentComment :=
  { id := "d-0", paraId := some "p1", author := "A", initial := "", date := none,
    plainText := "first", content := "<p>first</p>", documentId := "d",
    reference := "Comment 0", done := some false, parentId := none, durableId := none,
    children := some ["p2"] }

/-- The second comment after the enhancement pass. -/
def c9e1 : DocumentComment :=
  { id := "d-1", paraId := some "p2", author := "B", initial := "", date := none,
    plainText := "second", content := "<p>second</p>", documentId := "d",
    reference := "Comment 1", done := some true, parentId := some "p1", durableId := none,
    children := some [] }

/-- Witness for C9: the bare-fields statement applied at the package without
extended parts, and the enriched-fields statement applied at the package
with commentsExtended.xml. -/
theorem enhancement_only_with_extended_parts_witness :
    (c9c0.done = none ∧ c9c0.parentId = none ∧ c9c0.durableId = none ∧ c9c0.children = none) ∧
    (c9e0.done.isSome ∧ c9e0.children.isSome) :=
  ⟨enhancement_only_with_extended_parts.1 c9PkgNoExt "d" rfl rfl c9c0
     (by
       rw [show (parseDocxComments c9PkgNoExt "d").comments = [c9c0, c9c1] from rfl]
       exact List.mem_cons_self _ _),
   enhancement_only_with_extended_parts.2.1 c9PkgExt "d" (Or.inl rfl) c9e0
     (by
       rw [show (parseDocxComments c9PkgExt "d").comments = [c9e0, c9e1] from rfl]
       exact List.mem_cons_self _ _)⟩

/-- A normal footnote definition with original id 1. -/
def c8Note : DocumentFootnote :=
  { id := "d-footnote-1", type := "footnote", content := "<p>note</p>", plainText := "note",
    documentId := "d", noteType := "normal" }

/-- A paragraph whose first run references the unknown footnote id 9. -/
def c8DocMissing : XNode := mkDoc [.elem "w:p" [] [mkFnRefRun "9" "", mkTextRun "hello"]]

/-- The same paragraph referencing the known footnote id 1. -/
def c8DocPresent : XNode := mkDoc [.elem "w:p" [] [mkFnRefRun "1" "", mkTextRun "hello"]]

/-- C8: a run whose footnote reference id is not in the footnote map renders
exactly as the same run without the reference (no anchor markup, surrounding
text intact), while a resolvable id renders the superscript anchor; and on a
concrete document, the unresolved reference leaves no anchor and no block
for its id in the appended footnotes section (which holds exactly the blocks
of the parsed footnote definitions). -/
theorem footnote_reference_resolution :
    (∀ (ctx : TransformContext) (pp : Option ParagraphProperties) (i t : String),
       i ≠ "" →
       (lookupLast ctx.notes.footnotes i = none →
          transformRun (mkFnRefRun i t) [] ctx pp = transformRun (mkTextRun t) [] ctx pp) ∧
       (∀ note, lookupLast ctx.notes.footnotes i = some note →
          transformRun (mkFnRefRun i t) [] ctx pp =
            "<sup><a href=\"#footnote-" ++ i ++ "\" id=\"footnote-ref-" ++ i ++
              "\" class=\"footnote-link\">" ++ i ++ "</a></sup>")) ∧
    (transformDocumentToHtml c8DocMissing [c8Note] [] none none).html =
      "<p>hello</p>\n<div class=\"footnotes\">\n<hr class=\"footnotes-separator\">\n" ++
      "<div class=\"footnote\" id=\"footnote-1\">\n          " ++
      "<a href=\"#footnote-ref-1\" class=\"footnote-backlink\">1.</a> <p>note</p>\n        " ++
      "</div>\n</div>" ∧
    (transformDocumentToHtml c8DocPresent [c8Note] [] none none).html =
      "<p><sup><a href=\"#footnote-1\" id=\"footnote-ref-1\" class=\"footnote-link\">1" ++
      "</a></sup>hello</p>\n<div class=\"footnotes\">\n<hr class=\"footnotes-separator\">\n" ++
      "<div class=\"footnote\" id=\"footnote-1\">\n          " ++
      "<a href=\"#footnote-ref-1\" class=\"footnote-backlink\">1.</a> <p>note</p>\n        " ++
      "</div>\n</div>" := by
  refine ⟨?_, ?_, ?_⟩
  case refine_2 =>
    set_option maxRecDepth 4000 in rfl
  case refine_3 =>
    set_option maxRecDepth 4000 in rfl
  intro ctx pp i t hi
  have hib : (i == "") = false := by simpa using hi
  constructor
  · intro hnone
    simp only [transformRun, mkFnRefRun, mkTextRun, mkRun, mkT, qs, qsa,
      XNode.subEls, XNode.subElsList, XNode.getAttr, XNode.textContent,
      XNode.textContentList, extractRevisionInfo, revisionOfTag, XNode.tagOf,
      lowerStr, lowerChar, orT, jsTruthy, hib, hnone]
    simp [hib, hnone]
  · intro note hsome
    simp [transformRun, mkFnRefRun, mkTextRun, mkRun, mkT, qs, qsa,
      XNode.subEls, XNode.subElsList, XNode.getAttr, XNode.textContent,
      XNode.textContentList, extractRevisionInfo, revisionOfTag, XNode.tagOf,
      lowerStr, lowerChar, orT, jsTruthy, hib, hsome]

/-- Witness for C8: both resolution branches applied at a concrete context
holding only footnote id 1. -/
theorem footnote_reference_resolution_witness :
    (transformRun (mkFnRefRun "9" "hello") []
       { notes := createNoteContext [c8Note] [], numberingDefs := [], styles := [] } none =
     transformRun (mkTextRun "hello") []
       { notes := createNoteContext [c8Note] [], numberingDefs := [], styles := [] } none) ∧
    transformRun (mkFnRefRun "1" "hello") []
       { notes := createNoteContext [c8Note] [], numberingDefs := [], styles := [] } none =
      "<sup><a href=\"#footnote-1\" id=\"footnote-ref-1\" class=\"footnote-link\">1</a></sup>" :=
  ⟨(footnote_reference_resolution.1
      { notes := createNoteContext [c8Note] [], numberingDefs := [], styles := [] }
      none "9" "hello" (by decide)).1 rfl,
   by
     have h := (footnote_reference_resolution.1
       { notes := createNoteContext [c8Note] [], numberingDefs := [], styles := [] }
       none "1" "hello" (by decide)).2 c8Note rfl
     simpa using h⟩

/-- String concatenation acts as list concatenation on the underlying
character data. -/
theorem jsData_append (a b : String) : (a ++ b).data = a.data ++ b.data := by
  cases a; cases b; rfl

/-- Appending the empty string is the identity. -/
theorem string_append_empty (s : String) : s ++ "" = s := by
  cases s with
  | mk d => show String.mk (d ++ []) = String.mk d; rw [List.append_nil]

/-- The entity replacement for a single character never produces a raw angle
bracket. -/
theorem escapeChar_no_markup (c : Char) :
    '<' ∉ (escapeChar c).data ∧ '>' ∉ (escapeChar c).data := by
  unfold escapeChar
  split_ifs with h1 h2 h3
  · decide
  · decide
  · decide
  · constructor
    · intro hm
      have hm' : '<' ∈ [c] := hm
      exact h2 (List.mem_singleton.mp hm').symm
    · intro hm
      have hm' : '>' ∈ [c] := hm
      exact h3 (List.mem_singleton.mp hm').symm

/-- Joining the entity replacements of any character list never produces a
raw angle bracket. -/
theorem escape_join_no_markup : ∀ l : List Char,
    '<' ∉ (jsJoinSep "" (l.map escapeChar)).data ∧
    '>' ∉ (jsJoinSep "" (l.map escapeChar)).data
  | [] => by decide
  | [c] => escapeChar_no_markup c
  | c :: c2 :: rest => by
    have ih := escape_join_no_markup (c2 :: rest)
    have hc := escapeChar_no_markup c
    have e1 : jsJoinSep "" (List.map escapeChar (c :: c2 :: rest))
        = escapeChar c ++ "" ++ jsJoinSep "" (List.map escapeChar (c2 :: rest)) := rfl
    constructor
    · rw [e1, jsData_append, jsData_append]
      intro hm
      rcases List.mem_append.mp hm with hm1 | hm2
      · rcases List.mem_append.mp hm1 with hm1a | hm1b
        · exact hc.1 hm1a
        · exact List.not_mem_nil _ hm1b
      · exact ih.1 hm2
    · rw [e1, jsData_append, jsData_append]
      intro hm
      rcases List.mem_append.mp hm with hm1 | hm2
      · rcases List.mem_append.mp hm1 with hm1a | hm1b
        · exact hc.2 hm1a
        · exact List.not_mem_nil _ hm1b
      · exact ih.2 hm2

/-- A numbering definition whose level text itself contains raw markup. -/
def c10NumberingXml : XNode :=
  .elem "w:numbering" []
    [.elem "w:abstractNum" [("w:abstractNumId", "0")]
      [.elem "w:lvl" [("w:ilvl", "0")]
        [.elem "w:numFmt" [("w:val", "decimal")] [],
         .elem "w:lvlText" [("w:val", "<b>%1.")] []]],
     .elem "w:num" [("w:numId", "1")]
      [.elem "w:abstractNumId" [("w:val", "0")] []]]

/-- A document with one numbered paragraph whose run text contains a raw
angle bracket. -/
def c10Doc : XNode := mkDoc [c5Para "a<b"]

/-- A footnote definition whose HTML content carries markup. -/
def c10Note : DocumentFootnote :=
  { id := "d-footnote-1", type := "footnote", content := "<em>x</em>", plainText := "x",
    documentId := "d", noteType := "normal" }

/-- A plain one-paragraph document, to be rendered with `c10Note` appended. -/
def c10Doc2 : XNode := mkDoc [.elem "w:p" [] [mkTextRun "hi"]]

/-- C10: `escapeHtml` output never contains a raw angle bracket and maps the
three markup-significant characters to their entities; every plain text run
is rendered through `escapeHtml`; and on concrete documents, run text with a
raw bracket is escaped in the output while numbering marker text and
appended footnote block content are interpolated unescaped. -/
theorem run_text_html_escaped :
    (∀ s : String, '<' ∉ (escapeHtml s).data ∧ '>' ∉ (escapeHtml s).data) ∧
    (escapeHtml "&" = "&amp;" ∧ escapeHtml "<" = "&lt;" ∧ escapeHtml ">" = "&gt;" ∧
      escapeHtml "a<b" = "a&lt;b") ∧
    (∀ (ctx : TransformContext) (pp : Option ParagraphProperties) (t : String),
       transformRun (mkTextRun t) [] ctx pp =
         (if jsTrim t == "" then ""
          else
            if createRunStyles (mergedRunPropsOf (extractRunProperties none) pp ctx.styles) == ""
            then escapeHtml t
            else "<span style=\"" ++
              createRunStyles (mergedRunPropsOf (extractRunProperties none) pp ctx.styles) ++
              "\">" ++ escapeHtml t ++ "</span>")) ∧
    (transformDocumentToHtml c10Doc [] [] (some c10NumberingXml) none).html =
      "<p><span class=\"numbering-text\"><b>1. </span>a&lt;b</p>" ∧
    (transformDocumentToHtml c10Doc2 [c10Note] [] none none).html =
      "<p>hi</p>\n<div class=\"footnotes\">\n<hr class=\"footnotes-separator\">\n" ++
      "<div class=\"footnote\" id=\"footnote-1\">\n          " ++
      "<a href=\"#footnote-ref-1\" class=\"footnote-backlink\">1.</a> <em>x</em>\n        " ++
      "</div>\n</div>" := by
  refine ⟨fun s => escape_join_no_markup s.data, ⟨rfl, rfl, rfl, rfl⟩, ?_, ?_, ?_⟩
  case refine_2 =>
    set_option maxRecDepth 4000 in rfl
  case refine_3 =>
    set_option maxRecDepth 4000 in rfl
  intro ctx pp t
  simp only [transformRun, mkTextRun, mkRun, mkT, qs, qsa,
    XNode.subEls, XNode.subElsList, XNode.getAttr, XNode.textContent,
    XNode.textContentList, extractRevisionInfo, revisionOfTag, XNode.tagOf,
    lowerStr, lowerChar, orT, jsTruthy, jsJoinSep, string_append_empty]
  simp [string_append_empty, transformRun, mkTextRun, mkRun, mkT, qs, qsa,
    XNode.subEls, XNode.subElsList, XNode.getAttr, XNode.textContent,
    XNode.textContentList, extractRevisionInfo, revisionOfTag, XNode.tagOf,
    lowerStr, lowerChar, orT, jsTruthy, jsJoinSep]

end DocxEngine
